import Mathlib

/-!
Verification of the BlogAgents repository against its specification.

The repository is a small Python code base that chains LLM "agent" calls:
`custom_agents/topic_idea_agent.py` (prompt building and output parsing for
the topic-idea generator), `blog_orchestrator.py` (the four-stage blog
pipeline plus a parallel research helper), `zzz_pg_openai_workflow.py`
(a seven-stage generated workflow), and the Streamlit front ends
(`app.py`, `app_v2.py`, `app_v2_json.py`).

This file gives a shallow embedding of the pure logic of those modules:
strings are modelled as `String`/`List Char`, Python `str.strip`,
`str.split`, `str.startswith` and the one regular expression used by the
parser are modelled character by character, model invocations are an
oracle parameter `AgentKey → String → Except String String`, and the
pipeline state updates are explicit.
-/

namespace BlogAgents

/-! ## Python string primitives -/

/-- Whitespace characters stripped by Python `str.strip()` (ASCII range). -/
def isPySpace (c : Char) : Bool :=
  c = ' ' || c = '\t' || c = '\n' || c = '\r' || c = '\x0b' || c = '\x0c'

/-- `str.strip()` on a character list: drop whitespace on both ends. -/
def pyStripL (cs : List Char) : List Char :=
  ((cs.dropWhile isPySpace).reverse.dropWhile isPySpace).reverse

/-- `str.strip()` on a `String`. -/
def pyStrip (s : String) : String :=
  String.mk (pyStripL s.toList)

/-- Python `str.split(sep)` for a one-character separator: keeps empty
pieces and returns `[""]` on the empty string, exactly like Python. -/
def splitOnC (sep : Char) : List Char → List (List Char)
  | [] => [[]]
  | c :: cs =>
    match splitOnC sep cs with
    | [] => if c = sep then [[], []] else [[c]]
    | l :: ls => if c = sep then [] :: l :: ls else (c :: l) :: ls

/-- Join a list of lines with a separator character (inverse of `splitOnC`). -/
def joinC (sep : Char) : List (List Char) → List Char
  | [] => []
  | [l] => l
  | l :: ls => l ++ sep :: joinC sep ls

/-- The text after the first `':'` of a line, i.e. Python
`line.split(':', 1)[1]` (only ever used on lines that contain a colon). -/
def afterColon (cs : List Char) : List Char :=
  (cs.dropWhile (fun c => c != ':')).tail

/-- ASCII decimal digit, the characters matched by `\d` on this input. -/
def isDig (c : Char) : Bool :=
  48 ≤ c.toNat && c.toNat ≤ 57

/-- Decimal rendering with explicit fuel (`n + 1` steps always suffice,
since the argument shrinks by a factor of ten per step). -/
def natDigitsF : Nat → Nat → List Char
  | 0, _ => []
  | fuel + 1, n =>
    if n < 10 then [Char.ofNat (48 + n)]
    else natDigitsF fuel (n / 10) ++ [Char.ofNat (48 + n % 10)]

/-- Decimal rendering of a natural number, as Python `str(n)` produces. -/
def natDigits (n : Nat) : List Char :=
  natDigitsF (n + 1) n

/-- Python `str(n)` as a Lean string. -/
def pyRepr (n : Nat) : String :=
  String.mk (natDigits n)

/-! ## The topic-idea output parser (`TopicIdeaAgent._parse_topic_ideas`) -/

/-- One parsed topic record.  The Python parser builds a dict with exactly
the five keys `title`, `angle`, `keywords`, `rationale`, `content_type`;
this structure has exactly those five fields. -/
structure TopicIdea where
  title : String
  angle : String
  keywords : List String
  rationale : String
  content_type : String
deriving DecidableEq, Repr

/-- The fresh record opened by a matching title line:
`{'title': t, 'angle': '', 'keywords': [], 'rationale': '', 'content_type': ''}`. -/
def mkTopic (t : List Char) : TopicIdea :=
  ⟨String.mk t, "", [], "", ""⟩

/-- The regular expression `^#{0,2}\s*\d+\.\s*(.+)$` from
`_parse_topic_ideas`, applied with `re.match` to a line: up to two `#`
characters, optional whitespace, at least one digit, a literal dot, then
the (greedily space-trimmed, nonempty) title group.  Returns the stripped
group 1 (`title_match.group(1).strip()`), or `none` when the line does not
match. -/
def titleMatchL (cs : List Char) : Option (List Char) :=
  let hashes := cs.takeWhile (fun c => c = '#')
  if hashes.length > 2 then none
  else
    let r1 := (cs.dropWhile (fun c => c = '#')).dropWhile isPySpace
    let digits := r1.takeWhile isDig
    if digits.isEmpty then none
    else
      match r1.dropWhile isDig with
      | '.' :: r2 =>
        if r2.isEmpty then none
        else
          let grp := if (r2.dropWhile isPySpace).isEmpty
                     then [r2.getLastD ' '] else r2.dropWhile isPySpace
          some (pyStripL grp)
      | _ => none

/-- The label prefix with a leading dash, first form. -/
def anglePfx1 : List Char := "- **Angle**:".toList
/-- The bare angle label, second form. -/
def anglePfx2 : List Char := "**Angle**:".toList
/-- The keywords label with a leading dash. -/
def kwPfx1 : List Char := "- **Keywords**:".toList
/-- The bare keywords label. -/
def kwPfx2 : List Char := "**Keywords**:".toList
/-- The rationale label with a leading dash. -/
def ratPfx1 : List Char := "- **Rationale**:".toList
/-- The bare rationale label. -/
def ratPfx2 : List Char := "**Rationale**:".toList
/-- The content-type label with a leading dash. -/
def ctPfx1 : List Char := "- **Content Type**:".toList
/-- The bare content-type label. -/
def ctPfx2 : List Char := "**Content Type**:".toList

/-- The field-label branch of the parser loop: given an already stripped
line and the currently open record, update the record exactly as the
`elif` chain of `_parse_topic_ideas` does. -/
def applyFieldLine (s : List Char) (t : TopicIdea) : TopicIdea :=
  if anglePfx1.isPrefixOf s || anglePfx2.isPrefixOf s then
    { t with angle := String.mk (pyStripL (afterColon s)) }
  else if kwPfx1.isPrefixOf s || kwPfx2.isPrefixOf s then
    { t with keywords :=
        (splitOnC ',' (pyStripL (afterColon s))).map (fun k => String.mk (pyStripL k)) }
  else if ratPfx1.isPrefixOf s || ratPfx2.isPrefixOf s then
    { t with rationale := String.mk (pyStripL (afterColon s)) }
  else if ctPfx1.isPrefixOf s || ctPfx2.isPrefixOf s then
    { t with content_type := String.mk (pyStripL (afterColon s)) }
  else t

/-- `if current_topic and current_topic.get('title'): topics.append(current_topic)`. -/
def flushT : Option TopicIdea → List TopicIdea
  | none => []
  | some t => if t.title ≠ "" then [t] else []

/-- The line loop of `_parse_topic_ideas`: `cur` is `current_topic`
(`none` = Python `None`), `acc` the `topics` list built so far. -/
def parseGo : List (List Char) → Option TopicIdea → List TopicIdea → List TopicIdea
  | [], cur, acc => acc ++ flushT cur
  | l :: ls, cur, acc =>
    let s := pyStripL l
    match titleMatchL s with
    | some t => parseGo ls (some (mkTopic t)) (acc ++ flushT cur)
    | none =>
      match cur with
      | none => parseGo ls none acc
      | some c => parseGo ls (some (applyFieldLine s c)) acc

/-- `TopicIdeaAgent._parse_topic_ideas`: split the raw output on newlines
and run the line loop. -/
def parse_topic_ideas (raw : String) : List TopicIdea :=
  parseGo (splitOnC '\n' raw.toList) none []

/-! ## Prompt building (`TopicIdeaAgent._build_*`, `_build_prompt`)

Optional Python arguments are modelled as `Option`; Python falsiness of
`None`, `[]` and `""` is matched case by case. -/

/-- `Config.MAX_KEYWORDS` -/
def MAX_KEYWORDS : Nat := 10

/-- `Config.MAX_EXISTING_TOPICS` -/
def MAX_EXISTING_TOPICS : Nat := 50

/-- `TopicIdeaAgent._build_keyword_context`.  Note the source truncates to
`MAX_KEYWORDS` silently: no overflow note is emitted in this section. -/
def build_keyword_context (target_keywords : Option (List String)) : String :=
  match target_keywords with
  | none => ""
  | some [] => ""
  | some ks =>
    let keywords_to_use := ks.take MAX_KEYWORDS
    "\n\nTARGET KEYWORDS TO INCORPORATE:\nThese keywords should be incorporated into the topic ideas for SEO. Try to build topics around these:\n"
      ++ String.intercalate ", " keywords_to_use ++ "\n"

/-- `TopicIdeaAgent._build_product_context`. -/
def build_product_context (product_target : Option String) : String :=
  match product_target with
  | none => ""
  | some "" => ""
  | some p =>
    "\n\nPRODUCT/SERVICE TO PROMOTE:\n" ++ p
      ++ "\n\nIMPORTANT: Create topics that naturally lead to this product as a solution. The content should provide value first, then subtly position the product as helpful. Avoid being overly promotional.\n"

/-- `TopicIdeaAgent._build_duplication_context`: first `MAX_EXISTING_TOPICS`
titles as a bullet list, plus an `(and N more...)` note when truncated. -/
def build_duplication_context (existing_topics : Option (List String)) : String :=
  match existing_topics with
  | none => ""
  | some [] => ""
  | some ts =>
    let topics_sample := ts.take MAX_EXISTING_TOPICS
    let overflow_count := ts.length - MAX_EXISTING_TOPICS
    let overflow_text :=
      if overflow_count > 0 then "(and " ++ pyRepr overflow_count ++ " more...)" else ""
    "\n\nEXISTING BLOG POSTS TO AVOID DUPLICATING:\n"
      ++ String.intercalate "\n" (topics_sample.map (fun title => "- " ++ title))
      ++ "\n" ++ overflow_text
      ++ "\n\nCRITICAL: Do NOT suggest topics that are too similar to these existing posts. Generate completely new angles and subjects.\n"

/-- The outer f-string of `_build_prompt`, as a function of the three
already-built context sections. -/
def promptTemplate (reference_blog preferences keyword_context product_context duplication_context : String) (num_topics : Nat) : String :=
  "\nGenerate " ++ pyRepr num_topics ++ " topic ideas for the blog: " ++ reference_blog
    ++ "\n\nAdditional preferences:\n"
    ++ (if preferences ≠ "" then preferences else "No specific preferences")
    ++ "\n" ++ keyword_context
    ++ "\n" ++ product_context
    ++ "\n" ++ duplication_context
    ++ "\n\nInstructions:\n1. Quickly search " ++ reference_blog
    ++ " for 3-5 recent articles to understand their style\n2. Generate " ++ pyRepr num_topics
    ++ " specific, actionable topic ideas that match their content style\n3. Focus on topics they HAVEN\x27T covered yet - avoid duplicating the existing topics list above\n4. If target keywords were provided, prioritize topics that incorporate those high-value keywords\n5. If a product target was provided, create topics that naturally allow mentioning/promoting the product while providing genuine value\n\nFor EACH topic, use this EXACT format:\n## 1. Compelling Title Here\n- **Angle**: One sentence unique perspective\n- **Keywords**: keyword1, keyword2, keyword3\n- **Rationale**: One sentence why this works\n- **Content Type**: Guide/Tutorial/Listicle/Case Study\n\nGenerate all "
    ++ pyRepr num_topics ++ " topics now. Be concise but specific.\n"

/-- `TopicIdeaAgent._build_prompt`: build the three context sections and
substitute them into the outer template. -/
def build_prompt (reference_blog preferences : String)
    (target_keywords : Option (List String)) (product_target : Option String)
    (existing_topics : Option (List String)) (num_topics : Nat) : String :=
  promptTemplate reference_blog preferences
    (build_keyword_context target_keywords)
    (build_product_context product_target)
    (build_duplication_context existing_topics)
    num_topics

/-! ## The orchestrator pipeline (`blog_orchestrator.py`)

A model invocation is an oracle `AgentKey → String → Except String String`:
`.ok` is the agent's `final_output`, `.error` a raised exception's message. -/

/-- The four specialist agents of `BlogAgentOrchestrator`. -/
inductive AgentKey
  | style_analyzer
  | researcher
  | writer
  | editor
deriving DecidableEq, Repr

/-- One model round trip; failures surface as `Except.error`. -/
def Invoker : Type := AgentKey → String → Except String String

/-- The `style_prompt` f-string of `analyze_blog_style` (indentation of the
Python triple-quoted literal preserved). -/
def stylePrompt (blog_source : String) : String :=
  "\n        Analyze the writing style of " ++ blog_source
    ++ ".\n        \n        Instructions:\n        1. Search for recent articles from "
    ++ blog_source
    ++ "\n        2. Analyze multiple articles to identify consistent patterns\n        3. Extract the publication\x27s distinctive voice and style characteristics\n        4. Create a detailed style guide that includes specific examples\n        \n        Focus on recent articles to capture current writing style.\n        "

/-- `BlogAgentOrchestrator.analyze_blog_style`: runs the style analyzer and
catches any exception, returning `f"Style analysis failed: {e}"` as a
normal result instead of re-raising. -/
def analyze_blog_style (invoke : Invoker) (blog_source : String) : String :=
  match invoke .style_analyzer (stylePrompt blog_source) with
  | .ok r => r
  | .error e => "Style analysis failed: " ++ e

/-- `research_prompt` of `create_blog_post`. -/
def researchPrompt (topic requirements : String) : String :=
  "Research the topic: " ++ topic ++ "\n\nRequirements: " ++ requirements

/-- `writing_prompt` of `create_blog_post`. -/
def writingPrompt (topic style_guide research requirements reference_blog : String) : String :=
  "\n            Write a blog post about: " ++ topic
    ++ "\n            \n            STYLE GUIDE TO FOLLOW:\n            " ++ style_guide
    ++ "\n            \n            RESEARCH DATA:\n            " ++ research
    ++ "\n            \n            REQUIREMENTS: " ++ requirements
    ++ "\n            \n            Write the post to closely match the style and voice of "
    ++ reference_blog
    ++ ".\n            Use the specific patterns, tone, and techniques identified in the style guide.\n            "

/-- `editing_prompt` of `create_blog_post`. -/
def editingPrompt (reference_blog style_guide draft : String) : String :=
  "\n            Edit this blog post while preserving the " ++ reference_blog
    ++ " style:\n            \n            ORIGINAL STYLE GUIDE:\n            " ++ style_guide
    ++ "\n            \n            DRAFT TO EDIT:\n            " ++ draft
    ++ "\n            \n            Improve grammar, flow, and clarity while maintaining the distinctive voice and style patterns.\n            "

/-- The `results` dict of `create_blog_post`: a key is `some` exactly when
the corresponding assignment executed. -/
structure BlogResults where
  style_guide : Option String := none
  research : Option String := none
  draft : Option String := none
  final : Option String := none
  error : Option String := none
deriving DecidableEq, Repr

/-- `BlogAgentOrchestrator.create_blog_post`: four stages in order; the
first raising invocation jumps to the `except` block, which records
`results["error"]` and returns the partially filled `results` dict.  The
style stage cannot raise (see `analyze_blog_style`). -/
def create_blog_post (invoke : Invoker) (topic reference_blog requirements : String) : BlogResults :=
  let style_guide := analyze_blog_style invoke reference_blog
  match invoke .researcher (researchPrompt topic requirements) with
  | .error e => { style_guide := some style_guide, error := some e }
  | .ok research =>
    match invoke .writer (writingPrompt topic style_guide research requirements reference_blog) with
    | .error e =>
      { style_guide := some style_guide, research := some research, error := some e }
    | .ok draft =>
      match invoke .editor (editingPrompt reference_blog style_guide draft) with
      | .error e =>
        { style_guide := some style_guide, research := some research,
          draft := some draft, error := some e }
      | .ok final =>
        { style_guide := some style_guide, research := some research,
          draft := some draft, final := some final, error := none }

/-! ## Parallel research (`BlogAgentOrchestrator.parallel_research`) -/

/-- The per-worker prompt `f"Research specifically about {area} in relation to {topic}"`. -/
def researchAreaPrompt (topic area : String) : String :=
  "Research specifically about " ++ area ++ " in relation to " ++ topic

/-- Key list of a Python dict comprehension over `research_areas`:
first-occurrence order, duplicates collapsed. -/
def pyDictKeys (ks : List String) : List String :=
  ks.foldl (fun acc k => if k ∈ acc then acc else acc ++ [k]) []

/-- `parallel_research` as a mapping (association list in dict order):
`futures = {area: submit(research_area, area) for area in research_areas}`
then `results = {area: future.result() for area, future in futures.items()}`.
Each worker computes `r` on its own prompt; `future.result()` blocks until
that worker has completed. -/
def parallel_research (r : String → String) (topic : String) (research_areas : List String) :
    List (String × String) :=
  (pyDictKeys research_areas).map (fun area => (area, r (researchAreaPrompt topic area)))

/-- First-match association lookup (Python `dict[k]` access order). -/
def lookupPair (k : String) : List (String × String) → Option String
  | [] => none
  | (k', v) :: rest => if k' = k then some v else lookupPair k rest

/-! ## Pipeline state dataflow (`run_workflow` and `create_blog_post`)

A static model of which `state` fields each stage reads while building its
prompt and which fields it assigns, transcribed stage by stage from
`zzz_pg_openai_workflow.run_workflow` and
`blog_orchestrator.create_blog_post`, in the fixed execution order. -/

/-- Read/write footprint of one stage. -/
structure StageRW (α : Type) where
  reads : List α
  writes : List α

/-- The `state` keys of `run_workflow` (the `response_schema` constants are
listed as their own fields). -/
inductive WField
  | existing_posts_to_avoid
  | high_performing_pages
  | root_blog_url
  | seo_keywords
  | target_product_urls
  | topics
  | writing_requirements
  | writing_style
  | research
  | writer_draft
  | seo_analyze_first_pass
  | internal_links_out
  | edit_output
  | resp_schema_root_blog_url
  | resp_schema_topic
deriving DecidableEq, Repr

open WField in
/-- The seven stages of `run_workflow`, in source order.  `text_to_json`
parses the workflow input and assigns the seven global input fields; each
later agent call's context object names exactly the fields read.  The
editor's output is returned directly and never assigned to `state`. -/
def workflowStages : List (StageRW WField) :=
  [ ⟨[], [existing_posts_to_avoid, high_performing_pages, root_blog_url, seo_keywords,
          target_product_urls, topics, writing_requirements]⟩,
    ⟨[root_blog_url, high_performing_pages], [writing_style]⟩,
    ⟨[topics, writing_requirements, target_product_urls], [research]⟩,
    ⟨[topics, writing_style, research, writing_requirements, root_blog_url], [writer_draft]⟩,
    ⟨[writer_draft, topics, root_blog_url], [seo_analyze_first_pass]⟩,
    ⟨[writer_draft, resp_schema_root_blog_url, seo_analyze_first_pass, resp_schema_topic],
     [internal_links_out]⟩,
    ⟨[root_blog_url, writing_style, internal_links_out, seo_analyze_first_pass], []⟩ ]

/-- Fields of `run_workflow`'s state that are populated by the initial
state literal (the `response_schema` constants) rather than by a stage. -/
def workflowInitFields : List WField :=
  [WField.resp_schema_root_blog_url, WField.resp_schema_topic]

/-- The fields of `create_blog_post`'s run: three global inputs and the
four `results` keys of the success path. -/
inductive OField
  | topic
  | reference_blog
  | requirements
  | style_guide
  | research_out
  | draft
  | final
deriving DecidableEq, Repr

open OField in
/-- The four stages of `create_blog_post`, in source order, with the
fields each prompt interpolates and the `results` key each stage assigns. -/
def orchestratorStages : List (StageRW OField) :=
  [ ⟨[reference_blog], [style_guide]⟩,
    ⟨[topic, requirements], [research_out]⟩,
    ⟨[topic, style_guide, research_out, requirements, reference_blog], [draft]⟩,
    ⟨[reference_blog, style_guide, draft], [final]⟩ ]

/-- The global inputs of `create_blog_post` (its function arguments). -/
def orchestratorGlobals : List OField :=
  [OField.topic, OField.reference_blog, OField.requirements]

/-- All fields assigned across a stage list, in order. -/
def writeList {α : Type} (stages : List (StageRW α)) : List α :=
  (stages.map StageRW.writes).flatten

/-- Every field a stage reads is a global/initial field or was assigned by
a strictly earlier stage. -/
def readsBeforeWrites {α : Type} [DecidableEq α] (globals : List α) (stages : List (StageRW α)) : Prop :=
  ∀ i : Fin stages.length, ∀ f ∈ (stages.get i).reads,
    f ∈ globals ∨ ∃ j : Fin stages.length, j < i ∧ f ∈ (stages.get j).writes

/-! ## The app_v2 markdown reconstruction (`app_v2.main`, download block) -/

/-- One topic's markdown block in the `app_v2.py` export: note the field
labels are written `**Angle:**` (colon inside the bold markers), unlike
the `**Angle**:` labels the parser recognises. -/
def mdTopicBlock (i : Nat) (t : TopicIdea) : String :=
  "## " ++ pyRepr (i + 1) ++ ". " ++ t.title ++ "\n\n"
    ++ "- **Angle:** " ++ t.angle ++ "\n"
    ++ "- **Keywords:** " ++ String.intercalate ", " t.keywords ++ "\n"
    ++ "- **Rationale:** " ++ t.rationale ++ "\n"
    ++ "- **Content Type:** " ++ t.content_type ++ "\n\n"

/-- The whole `md_content` string built by the download block of
`app_v2.main`: `md_content = "# Generated Topic Ideas\n\n"` followed by
`md_content += <block>` for each `(i, topic)` of `enumerate(topics)`. -/
def mdContent (topics : List TopicIdea) : String :=
  topics.enum.foldl (fun md p => md ++ mdTopicBlock p.1 p.2) "# Generated Topic Ideas\n\n"

/-! ## Model output following the documented heading convention

The prompt of `_build_prompt` documents the exact output format
(`## 1. Title` followed by `- **Label**: value` lines).  A document in
that convention is a list of heading blocks; rendering one produces a
model output string to feed back to the parser. -/

/-- One field line of the convention, carrying its raw value text. -/
inductive FLine
  | angle (v : List Char)
  | keywords (v : List Char)
  | rationale (v : List Char)
  | contentType (v : List Char)
deriving DecidableEq, Repr

/-- Render one field line, `"- **Label**: " ++ value`. -/
def renderFieldL : FLine → List Char
  | .angle v => anglePfx1 ++ ' ' :: v
  | .keywords v => kwPfx1 ++ ' ' :: v
  | .rationale v => ratPfx1 ++ ' ' :: v
  | .contentType v => ctPfx1 ++ ' ' :: v

/-- One numbered heading with its field lines. -/
structure HeadingBlock where
  num : List Char
  title : List Char
  fields : List FLine
deriving DecidableEq, Repr

/-- The lines of one block: `## <num>. <title>` then the field lines. -/
def renderBlockLines (b : HeadingBlock) : List (List Char) :=
  ('#' :: '#' :: ' ' :: (b.num ++ '.' :: ' ' :: b.title)) :: b.fields.map renderFieldL

/-- A convention-following model output: all blocks' lines joined by
newlines. -/
def renderDoc (doc : List HeadingBlock) : String :=
  String.mk (joinC '\n' (doc.map renderBlockLines).flatten)

/-- The record the parser is specified to recover from one block: start
from the fresh record for the title and fill each labelled field from its
line (the keyword line is comma-split and entry-stripped). -/
def applyF (t : TopicIdea) : FLine → TopicIdea
  | .angle v => { t with angle := String.mk v }
  | .keywords v =>
    { t with keywords := (splitOnC ',' v).map (fun k => String.mk (pyStripL k)) }
  | .rationale v => { t with rationale := String.mk v }
  | .contentType v => { t with content_type := String.mk v }

/-- Expected parse of one heading block. -/
def expectedTopic (b : HeadingBlock) : TopicIdea :=
  b.fields.foldl applyF (mkTopic b.title)

/-! ### Well-formedness of convention documents -/

/-- A value already stripped on both sides (Python `v.strip() == v`). -/
def TrimmedL (v : List Char) : Prop :=
  List.dropWhile isPySpace v = v ∧ List.dropWhile isPySpace v.reverse = v.reverse

instance (v : List Char) : Decidable (TrimmedL v) :=
  decidable_of_iff
    (List.dropWhile isPySpace v = v ∧ List.dropWhile isPySpace v.reverse = v.reverse) Iff.rfl

/-- A field value that stays on its own line and survives stripping. -/
def WFval (v : List Char) : Prop := TrimmedL v ∧ '\n' ∉ v

instance (v : List Char) : Decidable (WFval v) :=
  decidable_of_iff (TrimmedL v ∧ '\n' ∉ v) Iff.rfl

/-- Well-formed field line. -/
def WFfield : FLine → Prop
  | .angle v => WFval v
  | .keywords v => WFval v
  | .rationale v => WFval v
  | .contentType v => WFval v

instance : (f : FLine) → Decidable (WFfield f)
  | .angle v => decidable_of_iff (WFval v) Iff.rfl
  | .keywords v => decidable_of_iff (WFval v) Iff.rfl
  | .rationale v => decidable_of_iff (WFval v) Iff.rfl
  | .contentType v => decidable_of_iff (WFval v) Iff.rfl

/-- Well-formed heading block: a real decimal number, a nonempty stripped
single-line title, well-formed field values. -/
def WFblock (b : HeadingBlock) : Prop :=
  b.num ≠ [] ∧ (∀ c ∈ b.num, isDig c = true) ∧ b.title ≠ [] ∧ WFval b.title
    ∧ ∀ f ∈ b.fields, WFfield f

instance (b : HeadingBlock) : Decidable (WFblock b) :=
  decidable_of_iff
    (b.num ≠ [] ∧ (∀ c ∈ b.num, isDig c = true) ∧ b.title ≠ [] ∧ WFval b.title
      ∧ ∀ f ∈ b.fields, WFfield f) Iff.rfl

/-! ## Substring containment (for prompt-section claims) -/

/-- `needle` occurs as a contiguous segment of `hay`. -/
def containsSeg : List Char → List Char → Bool
  | needle, [] => needle.isEmpty
  | needle, c :: t => needle.isPrefixOf (c :: t) || containsSeg needle t

/-- Python `needle in hay` on strings. -/
def strContains (hay needle : String) : Bool :=
  containsSeg needle.toList hay.toList

/-! ## Helper lemmas: lists and characters -/

theorem isPrefixOf_append_self (p rest : List Char) : p.isPrefixOf (p ++ rest) = true := by
  induction p with
  | nil => simp [List.isPrefixOf]
  | cons c cs ih => simp [List.isPrefixOf, ih]

theorem isPrefixOf_refl (p : List Char) : p.isPrefixOf p = true := by
  have := isPrefixOf_append_self p []
  rwa [List.append_nil] at this

theorem isPrefixOf_false_append {p q : List Char} (rest : List Char)
    (hpq : p.isPrefixOf q = false) (hqp : q.isPrefixOf p = false) :
    p.isPrefixOf (q ++ rest) = false := by
  induction p generalizing q with
  | nil => simp [List.isPrefixOf] at hpq
  | cons a as ih =>
    cases q with
    | nil => simp [List.isPrefixOf] at hqp
    | cons b bs =>
      simp only [List.cons_append, List.isPrefixOf, Bool.and_eq_false_iff] at hpq hqp ⊢
      rcases hpq with h | h
      · exact Or.inl h
      · rcases hqp with h' | h'
        · refine Or.inl ?_
          simp only [beq_eq_false_iff_ne] at h' ⊢
          exact fun e => h' e.symm
        · exact Or.inr (ih h h')

theorem isPrefixOf_nil_false {p : List Char} (h : p ≠ []) : p.isPrefixOf [] = false := by
  cases p with
  | nil => exact absurd rfl h
  | cons a as => rfl

theorem containsSeg_nil_needle (l : List Char) : containsSeg [] l = true := by
  cases l <;> simp [containsSeg]

theorem containsSeg_of_append (n a b : List Char) : containsSeg n (a ++ (n ++ b)) = true := by
  induction a with
  | nil =>
    cases n with
    | nil => simpa using containsSeg_nil_needle b
    | cons c t =>
      have hp := isPrefixOf_append_self (c :: t) b
      simp only [List.nil_append, List.cons_append] at hp ⊢
      simp [containsSeg, hp]
  | cons c t ih =>
    simp only [List.cons_append] at ih ⊢
    simp [containsSeg, ih]

theorem dropWhile_cons_false {p : Char → Bool} {c : Char} (l : List Char)
    (h : p c = false) : List.dropWhile p (c :: l) = c :: l :=
  List.dropWhile_cons_of_neg (by simp [h])

theorem head_false_of_dropWhile_eq_self {p : Char → Bool} {c : Char} {l : List Char}
    (h : List.dropWhile p (c :: l) = c :: l) : p c = false := by
  by_contra hc
  have hc' : p c = true := by
    cases hpc : p c
    · exact absurd hpc hc
    · rfl
  rw [List.dropWhile_cons_of_pos hc'] at h
  have hlen := congrArg List.length h
  have hle := (List.dropWhile_sublist (l := l) (p := p)).length_le
  simp only [List.length_cons] at hlen
  omega

theorem dropWhile_eq_self_append {p : Char → Bool} {l : List Char} (ys : List Char)
    (h : List.dropWhile p l = l) (hne : l ≠ []) :
    List.dropWhile p (l ++ ys) = l ++ ys := by
  cases l with
  | nil => exact absurd rfl hne
  | cons c t =>
    have hc := head_false_of_dropWhile_eq_self h
    rw [List.cons_append]
    exact dropWhile_cons_false _ hc

/-- If a list is left-trimmed and right-trimmed, `pyStripL` is the identity. -/
theorem pyStripL_of_trimmed {l : List Char} (h : TrimmedL l) : pyStripL l = l := by
  rcases h with ⟨h1, h2⟩
  unfold pyStripL
  rw [h1, h2, List.reverse_reverse]

theorem trimmedL_nil : TrimmedL [] := ⟨rfl, rfl⟩

/-- A nonempty trimmed list starts with a non-space character. -/
theorem trimmed_head_false {c : Char} {t : List Char} (h : TrimmedL (c :: t)) :
    isPySpace c = false :=
  head_false_of_dropWhile_eq_self h.1

/-- A nonempty trimmed list ends with a non-space character (stated via the
head of the reversal). -/
theorem trimmed_rev_head_false {v : List Char} (hne : v ≠ []) (h : TrimmedL v) :
    isPySpace (v.reverse.headD ' ') = false := by
  rcases hrev : v.reverse with _ | ⟨e, es⟩
  · exact absurd (List.reverse_eq_nil_iff.mp hrev) hne
  · have h2 := h.2
    rw [hrev] at h2
    simpa using head_false_of_dropWhile_eq_self h2

/-- A list whose first and last characters are non-space is trimmed. -/
theorem trimmedL_of_head_rev_head {l : List Char} (hne : l ≠ [])
    (hh : isPySpace (l.headD ' ') = false)
    (hl : isPySpace (l.reverse.headD ' ') = false) : TrimmedL l := by
  constructor
  · cases l with
    | nil => rfl
    | cons c t => exact dropWhile_cons_false _ (by simpa using hh)
  · rcases hrev : l.reverse with _ | ⟨e, es⟩
    · rfl
    · rw [hrev] at hl
      exact dropWhile_cons_false _ (by simpa using hl)

/-- Strip of a line `(c :: q) ++ X` whose visible prefix starts and ends
with non-space characters: the prefix is preserved and only a tail of `X`
can be trimmed away. -/
theorem pyStripL_append_shape {c : Char} {q : List Char} (X : List Char)
    (hc : isPySpace c = false)
    (hlast : isPySpace (((c :: q).reverse).headD ' ') = false) :
    ∃ Y, pyStripL ((c :: q) ++ X) = (c :: q) ++ Y := by
  obtain ⟨d, ds, hrev⟩ : ∃ d ds, (c :: q).reverse = d :: ds := by
    rcases hx : (c :: q).reverse with _ | ⟨d, ds⟩
    · exact absurd hx (by simp)
    · exact ⟨d, ds, rfl⟩
  have hd : isPySpace d = false := by rw [hrev] at hlast; simpa using hlast
  have h1 : List.dropWhile isPySpace ((c :: q) ++ X) = c :: (q ++ X) := by
    rw [List.cons_append]; exact dropWhile_cons_false _ hc
  have h2 : (c :: (q ++ X)).reverse = X.reverse ++ (c :: q).reverse := by
    simp [List.reverse_cons, List.reverse_append, List.append_assoc]
  have key : pyStripL ((c :: q) ++ X)
      = if (List.dropWhile isPySpace X.reverse).isEmpty
        then (List.dropWhile isPySpace ((c :: q).reverse)).reverse
        else (List.dropWhile isPySpace X.reverse ++ (c :: q).reverse).reverse := by
    unfold pyStripL
    rw [h1, h2, List.dropWhile_append, apply_ite List.reverse]
  by_cases hE : (List.dropWhile isPySpace X.reverse).isEmpty
  · refine ⟨[], ?_⟩
    rw [key, if_pos hE, hrev, dropWhile_cons_false _ hd, ← hrev, List.reverse_reverse,
      List.append_nil]
  · refine ⟨(List.dropWhile isPySpace X.reverse).reverse, ?_⟩
    rw [key, if_neg hE, List.reverse_append, List.reverse_reverse]

/-- Strip of a field line `(c :: q) ++ ' ' :: v` with an empty value: the
trailing separator space is stripped away. -/
theorem pyStripL_field_nil {c : Char} {q : List Char}
    (hc : isPySpace c = false)
    (hlast : isPySpace (((c :: q).reverse).headD ' ') = false) :
    pyStripL ((c :: q) ++ [' ']) = c :: q := by
  obtain ⟨d, ds, hrev⟩ : ∃ d ds, (c :: q).reverse = d :: ds := by
    rcases hx : (c :: q).reverse with _ | ⟨d, ds⟩
    · exact absurd hx (by simp)
    · exact ⟨d, ds, rfl⟩
  have hd : isPySpace d = false := by rw [hrev] at hlast; simpa using hlast
  have h1 : List.dropWhile isPySpace ((c :: q) ++ [' ']) = c :: (q ++ [' ']) := by
    rw [List.cons_append]; exact dropWhile_cons_false _ hc
  have h2 : (c :: (q ++ [' '])).reverse = ' ' :: (c :: q).reverse := by
    simp [List.reverse_cons, List.reverse_append]
  unfold pyStripL
  rw [h1, h2, List.dropWhile_cons_of_pos (by simp [isPySpace]), hrev,
    dropWhile_cons_false _ hd, ← hrev, List.reverse_reverse]

/-- Strip of a field line `(c :: q) ++ ' ' :: v` with a nonempty trimmed
value: the line is already stripped. -/
theorem pyStripL_field_cons {c : Char} {q : List Char} {w : Char} {ws : List Char}
    (hc : isPySpace c = false) (hv : TrimmedL (w :: ws)) :
    pyStripL ((c :: q) ++ ' ' :: w :: ws) = (c :: q) ++ ' ' :: w :: ws := by
  refine pyStripL_of_trimmed (trimmedL_of_head_rev_head (by simp) (by simpa using hc) ?_)
  have hvlast := trimmed_rev_head_false (by simp) hv
  obtain ⟨e, es, hrev⟩ : ∃ e es, (w :: ws).reverse = e :: es := by
    rcases hx : (w :: ws).reverse with _ | ⟨e, es⟩
    · exact absurd hx (by simp)
    · exact ⟨e, es, rfl⟩
  have h2 : ((c :: q) ++ ' ' :: w :: ws).reverse
      = (w :: ws).reverse ++ ' ' :: (c :: q).reverse := by
    simp [List.reverse_append, List.reverse_cons, List.append_assoc]
  rw [h2, hrev]
  rw [hrev] at hvlast
  simpa using hvlast

/-! ## Helper lemmas: split and join -/

theorem splitOnC_ne_nil (sep : Char) (l : List Char) : splitOnC sep l ≠ [] := by
  cases l with
  | nil => simp [splitOnC]
  | cons c cs =>
    by_cases hc : c = sep <;>
      rcases h : splitOnC sep cs with _ | ⟨m, ms⟩ <;>
        simp [splitOnC, h, hc]

theorem splitOnC_no_sep (sep : Char) (l : List Char) (h : sep ∉ l) :
    splitOnC sep l = [l] := by
  induction l with
  | nil => rfl
  | cons c cs ih =>
    have hc : ¬ c = sep := fun e => h (e ▸ List.mem_cons_self c cs)
    have hcs : sep ∉ cs := fun m => h (List.mem_cons_of_mem c m)
    unfold splitOnC
    rw [ih hcs]
    simp [hc]

theorem splitOnC_append_sep (sep : Char) (l X : List Char) (h : sep ∉ l) :
    splitOnC sep (l ++ sep :: X) = l :: splitOnC sep X := by
  induction l with
  | nil =>
    rcases hx : splitOnC sep X with _ | ⟨m, ms⟩
    · exact absurd hx (splitOnC_ne_nil sep X)
    · simp [splitOnC, hx]
  | cons c cs ih =>
    have hc : ¬ c = sep := fun e => h (e ▸ List.mem_cons_self c cs)
    have hcs : sep ∉ cs := fun m => h (List.mem_cons_of_mem c m)
    have hrec := ih hcs
    rw [List.cons_append]
    simp only [splitOnC]
    rw [hrec]
    simp [hc]

theorem splitOnC_joinC (sep : Char) (lines : List (List Char))
    (h : ∀ l ∈ lines, sep ∉ l) (hne : lines ≠ []) :
    splitOnC sep (joinC sep lines) = lines := by
  induction lines with
  | nil => exact absurd rfl hne
  | cons l ls ih =>
    cases ls with
    | nil =>
      show splitOnC sep (joinC sep [l]) = [l]
      unfold joinC
      exact splitOnC_no_sep sep l (h l (List.mem_cons_self l []))
    | cons l2 ls2 =>
      show splitOnC sep (joinC sep (l :: l2 :: ls2)) = l :: l2 :: ls2
      unfold joinC
      rw [splitOnC_append_sep sep l _ (h l (List.mem_cons_self _ _))]
      rw [ih (fun x hx => h x (List.mem_cons_of_mem l hx)) (by simp)]

theorem joinC_append (sep : Char) (L1 L2 : List (List Char)) (h1 : L1 ≠ []) (h2 : L2 ≠ []) :
    joinC sep (L1 ++ L2) = joinC sep L1 ++ sep :: joinC sep L2 := by
  induction L1 with
  | nil => exact absurd rfl h1
  | cons a as ih =>
    cases as with
    | nil =>
      cases L2 with
      | nil => exact absurd rfl h2
      | cons b bs => simp [joinC]
    | cons a2 as2 =>
      have hmid := ih (by simp)
      have hcons : joinC sep ((a :: a2 :: as2) ++ L2)
          = a ++ sep :: joinC sep ((a2 :: as2) ++ L2) := by
        rw [List.cons_append]
        rcases hsh : (a2 :: as2) ++ L2 with _ | ⟨x, xs⟩
        · simp at hsh
        · rfl
      have hRHS : joinC sep (a :: a2 :: as2) = a ++ sep :: joinC sep (a2 :: as2) := rfl
      rw [hcons, hmid, hRHS]
      simp [List.append_assoc]

/-! ## Helper lemmas: digits -/

theorem isDig_ofNat_digit {d : Nat} (h : d < 10) : isDig (Char.ofNat (48 + d)) = true := by
  have hv : (Char.ofNat (48 + d)).toNat = 48 + d := by
    unfold Char.ofNat
    rw [dif_pos]
    · rfl
    · constructor
      omega
  simp only [isDig, hv, Bool.and_eq_true, decide_eq_true_eq]
  omega

theorem natDigitsF_ne_nil (fuel n : Nat) (h : n < fuel) : natDigitsF fuel n ≠ [] := by
  cases fuel with
  | zero => omega
  | succ fuel =>
    unfold natDigitsF
    split <;> simp

theorem natDigits_ne_nil (n : Nat) : natDigits n ≠ [] :=
  natDigitsF_ne_nil (n + 1) n (Nat.lt_succ_self n)

theorem natDigitsF_all_dig (fuel : Nat) :
    ∀ (n : Nat), ∀ c ∈ natDigitsF fuel n, isDig c = true := by
  induction fuel with
  | zero => intro n c hc; simp [natDigitsF] at hc
  | succ fuel ih =>
    intro n c hc
    unfold natDigitsF at hc
    split at hc
    · rename_i h
      rw [List.mem_singleton.mp hc]
      exact isDig_ofNat_digit h
    · rcases List.mem_append.mp hc with hm | hm
      · exact ih (n / 10) c hm
      · rw [List.mem_singleton.mp hm]
        exact isDig_ofNat_digit (Nat.mod_lt _ (by norm_num))

theorem natDigits_all_dig (n : Nat) : ∀ c ∈ natDigits n, isDig c = true :=
  natDigitsF_all_dig (n + 1) n

theorem isDig_not_space {c : Char} (h : isDig c = true) : isPySpace c = false := by
  simp only [isDig, Bool.and_eq_true, decide_eq_true_eq] at h
  simp only [isPySpace, Bool.or_eq_false_iff, decide_eq_false_iff_not]
  refine ⟨⟨⟨⟨⟨?_, ?_⟩, ?_⟩, ?_⟩, ?_⟩, ?_⟩ <;> rintro rfl <;> revert h <;> decide

theorem isDig_ne_hash {c : Char} (h : isDig c = true) : ¬ c = '#' := by
  rintro rfl
  revert h
  decide

/-! ## Helper lemmas: the dropWhile and takeWhile steps of the parser -/

theorem dropWhile_eq_self_of_all {p : Char → Bool} {l : List Char}
    (h : ∀ c ∈ l, p c = false) : List.dropWhile p l = l := by
  cases l with
  | nil => rfl
  | cons c t => exact dropWhile_cons_false _ (h c (List.mem_cons_self c t))

/-- `afterColon` jumps over a colon-free prefix. -/
theorem afterColon_append (q X : List Char) (h : ∀ c ∈ q, (c != ':') = true) :
    afterColon (q ++ ':' :: X) = X := by
  induction q with
  | nil => simp [afterColon, List.dropWhile_cons_of_neg]
  | cons c cs ih =>
    have hc := h c (List.mem_cons_self c cs)
    unfold afterColon at ih ⊢
    rw [List.cons_append, List.dropWhile_cons_of_pos (by simpa using hc)]
    exact ih (fun x hx => h x (List.mem_cons_of_mem c hx))

/-- Strip after the separator space of a nonempty trimmed value. -/
theorem pyStripL_space_cons {v : List Char} (hv : TrimmedL v) :
    pyStripL (' ' :: v) = v := by
  unfold pyStripL
  rw [List.dropWhile_cons_of_pos (by decide), hv.1, hv.2, List.reverse_reverse]

/-! ## Helper lemmas: `titleMatchL` -/

/-- A line opening with a character that is not `#`, not whitespace and not
a digit never matches the title pattern. -/
theorem titleMatchL_none_of_head {c : Char} (l : List Char)
    (h1 : ¬ c = '#') (h2 : isPySpace c = false) (h3 : isDig c = false) :
    titleMatchL (c :: l) = none := by
  unfold titleMatchL
  rw [List.takeWhile_cons_of_neg (by simpa using h1)]
  simp only [List.length_nil, gt_iff_lt, Nat.not_lt_zero, if_false]
  rw [List.dropWhile_cons_of_neg (by simpa using h1), dropWhile_cons_false _ h2,
    List.takeWhile_cons_of_neg (by simp [h3])]
  simp

/-- The title pattern on a rendered `## <num>. <title>` heading line with a
digit number and a nonempty trimmed title. -/
theorem titleMatchL_heading {num title : List Char}
    (hnum : num ≠ []) (hdig : ∀ c ∈ num, isDig c = true)
    (htne : title ≠ []) (htr : TrimmedL title) :
    titleMatchL ('#' :: '#' :: ' ' :: (num ++ '.' :: ' ' :: title)) = some title := by
  have hnospace : ∀ c ∈ num, isPySpace c = false := fun c hc => isDig_not_space (hdig c hc)
  obtain ⟨d, ds, hd⟩ : ∃ d ds, num = d :: ds := by
    cases num with
    | nil => exact absurd rfl hnum
    | cons d ds => exact ⟨d, ds, rfl⟩
  unfold titleMatchL
  rw [List.takeWhile_cons_of_pos (by decide), List.takeWhile_cons_of_pos (by decide),
    List.takeWhile_cons_of_neg (by decide)]
  simp only [List.length_cons, List.length_nil, gt_iff_lt]
  rw [if_neg (by omega)]
  rw [List.dropWhile_cons_of_pos (by decide), List.dropWhile_cons_of_pos (by decide),
    List.dropWhile_cons_of_neg (by decide)]
  rw [List.dropWhile_cons_of_pos (by decide)]
  rw [dropWhile_eq_self_append _ (dropWhile_eq_self_of_all hnospace) hnum]
  rw [List.takeWhile_append_of_pos (by simpa using hdig),
    List.takeWhile_cons_of_neg (by decide)]
  simp only [List.append_nil, List.isEmpty_eq_true, if_neg hnum]
  rw [List.dropWhile_append_of_pos (by simpa using hdig),
    List.dropWhile_cons_of_neg (by decide)]
  simp only []
  rw [if_neg (show ¬ ' ' :: title = [] by simp)]
  have hdrop : List.dropWhile isPySpace (' ' :: title) = title := by
    rw [List.dropWhile_cons_of_pos (by decide), htr.1]
  rw [hdrop, if_neg htne, pyStripL_of_trimmed htr]

/-! ## Helper lemmas: `applyFieldLine` -/

theorem applyFieldLine_title (s : List Char) (t : TopicIdea) :
    (applyFieldLine s t).title = t.title := by
  unfold applyFieldLine
  split_ifs <;> rfl

theorem applyFieldLine_no_label {s : List Char} (t : TopicIdea)
    (h1 : anglePfx1.isPrefixOf s = false) (h2 : anglePfx2.isPrefixOf s = false)
    (h3 : kwPfx1.isPrefixOf s = false) (h4 : kwPfx2.isPrefixOf s = false)
    (h5 : ratPfx1.isPrefixOf s = false) (h6 : ratPfx2.isPrefixOf s = false)
    (h7 : ctPfx1.isPrefixOf s = false) (h8 : ctPfx2.isPrefixOf s = false) :
    applyFieldLine s t = t := by
  unfold applyFieldLine
  simp [h1, h2, h3, h4, h5, h6, h7, h8]

theorem applyFieldLine_nil (t : TopicIdea) : applyFieldLine [] t = t :=
  applyFieldLine_no_label t
    (isPrefixOf_nil_false (by decide)) (isPrefixOf_nil_false (by decide))
    (isPrefixOf_nil_false (by decide)) (isPrefixOf_nil_false (by decide))
    (isPrefixOf_nil_false (by decide)) (isPrefixOf_nil_false (by decide))
    (isPrefixOf_nil_false (by decide)) (isPrefixOf_nil_false (by decide))

theorem applyFieldLine_angle (X : List Char) (t : TopicIdea) :
    applyFieldLine (anglePfx1 ++ X) t = { t with angle := String.mk (pyStripL X) } := by
  have hcolon : afterColon (anglePfx1 ++ X) = X := by
    rw [show anglePfx1 = "- **Angle**".toList ++ [':'] from by decide, List.append_assoc,
      List.singleton_append]
    exact afterColon_append _ _ (by decide)
  unfold applyFieldLine
  simp [isPrefixOf_append_self, hcolon]

theorem applyFieldLine_kw (X : List Char) (t : TopicIdea) :
    applyFieldLine (kwPfx1 ++ X) t
      = { t with keywords :=
            (splitOnC ',' (pyStripL X)).map (fun k => String.mk (pyStripL k)) } := by
  have hcolon : afterColon (kwPfx1 ++ X) = X := by
    rw [show kwPfx1 = "- **Keywords**".toList ++ [':'] from by decide, List.append_assoc,
      List.singleton_append]
    exact afterColon_append _ _ (by decide)
  unfold applyFieldLine
  rw [isPrefixOf_false_append X (by decide) (by decide),
    isPrefixOf_false_append X (by decide) (by decide)]
  simp [isPrefixOf_append_self, hcolon]

theorem applyFieldLine_rat (X : List Char) (t : TopicIdea) :
    applyFieldLine (ratPfx1 ++ X) t
      = { t with rationale := String.mk (pyStripL X) } := by
  have hcolon : afterColon (ratPfx1 ++ X) = X := by
    rw [show ratPfx1 = "- **Rationale**".toList ++ [':'] from by decide, List.append_assoc,
      List.singleton_append]
    exact afterColon_append _ _ (by decide)
  unfold applyFieldLine
  rw [isPrefixOf_false_append X (by decide) (by decide),
    isPrefixOf_false_append X (by decide) (by decide),
    isPrefixOf_false_append X (by decide) (by decide),
    isPrefixOf_false_append X (by decide) (by decide)]
  simp [isPrefixOf_append_self, hcolon]

theorem applyFieldLine_ct (X : List Char) (t : TopicIdea) :
    applyFieldLine (ctPfx1 ++ X) t
      = { t with content_type := String.mk (pyStripL X) } := by
  have hcolon : afterColon (ctPfx1 ++ X) = X := by
    rw [show ctPfx1 = "- **Content Type**".toList ++ [':'] from by decide, List.append_assoc,
      List.singleton_append]
    exact afterColon_append _ _ (by decide)
  unfold applyFieldLine
  rw [isPrefixOf_false_append X (by decide) (by decide),
    isPrefixOf_false_append X (by decide) (by decide),
    isPrefixOf_false_append X (by decide) (by decide),
    isPrefixOf_false_append X (by decide) (by decide),
    isPrefixOf_false_append X (by decide) (by decide),
    isPrefixOf_false_append X (by decide) (by decide)]
  simp [isPrefixOf_append_self, hcolon]

/-! ## Helper lemmas: rendered field lines through the parser -/

/-- Strip of a rendered `label ++ ' ' :: value` line with a trimmed value. -/
theorem strip_label_line {pfx v : List Char} (hne : pfx ≠ [])
    (hh : isPySpace (pfx.headD ' ') = false)
    (hl : isPySpace (pfx.reverse.headD ' ') = false)
    (hv : TrimmedL v) :
    pyStripL (pfx ++ ' ' :: v) = pfx ++ (if v.isEmpty then [] else ' ' :: v) := by
  obtain ⟨c, q, rfl⟩ : ∃ c q, pfx = c :: q := by
    cases pfx with
    | nil => exact absurd rfl hne
    | cons c q => exact ⟨c, q, rfl⟩
  have hc : isPySpace c = false := by simpa using hh
  cases v with
  | nil => simpa using pyStripL_field_nil hc hl
  | cons w ws => simpa using pyStripL_field_cons hc hv

/-- The stripped form of any rendered field line never matches the title
pattern (it still begins with `-`). -/
theorem fieldLine_titleMatch_none (f : FLine) :
    titleMatchL (pyStripL (renderFieldL f)) = none := by
  cases f with
  | angle v =>
    rw [renderFieldL, show anglePfx1 = '-' :: " **Angle**:".toList from by decide]
    obtain ⟨Y, hY⟩ :=
      pyStripL_append_shape (c := '-') (q := " **Angle**:".toList) (' ' :: v)
        (by decide) (by decide)
    rw [hY, List.cons_append]
    exact titleMatchL_none_of_head _ (by decide) (by decide) (by decide)
  | keywords v =>
    rw [renderFieldL, show kwPfx1 = '-' :: " **Keywords**:".toList from by decide]
    obtain ⟨Y, hY⟩ :=
      pyStripL_append_shape (c := '-') (q := " **Keywords**:".toList) (' ' :: v)
        (by decide) (by decide)
    rw [hY, List.cons_append]
    exact titleMatchL_none_of_head _ (by decide) (by decide) (by decide)
  | rationale v =>
    rw [renderFieldL, show ratPfx1 = '-' :: " **Rationale**:".toList from by decide]
    obtain ⟨Y, hY⟩ :=
      pyStripL_append_shape (c := '-') (q := " **Rationale**:".toList) (' ' :: v)
        (by decide) (by decide)
    rw [hY, List.cons_append]
    exact titleMatchL_none_of_head _ (by decide) (by decide) (by decide)
  | contentType v =>
    rw [renderFieldL, show ctPfx1 = '-' :: " **Content Type**:".toList from by decide]
    obtain ⟨Y, hY⟩ :=
      pyStripL_append_shape (c := '-') (q := " **Content Type**:".toList) (' ' :: v)
        (by decide) (by decide)
    rw [hY, List.cons_append]
    exact titleMatchL_none_of_head _ (by decide) (by decide) (by decide)

/-- On the stripped form of a well-formed rendered field line the `elif`
chain performs exactly the corresponding record update. -/
theorem fieldLine_apply (f : FLine) (hf : WFfield f) (t : TopicIdea) :
    applyFieldLine (pyStripL (renderFieldL f)) t = applyF t f := by
  cases f with
  | angle v =>
    obtain ⟨hv, -⟩ := hf
    rw [renderFieldL, strip_label_line (by decide) (by decide) (by decide) hv]
    cases v with
    | nil =>
      simp only [List.isEmpty_nil, if_true, List.append_nil]
      have h := applyFieldLine_angle [] t
      rw [List.append_nil] at h
      rw [h]
      rfl
    | cons w ws =>
      simp only [List.isEmpty_cons, Bool.false_eq_true, if_false]
      rw [applyFieldLine_angle, pyStripL_space_cons hv]
      rfl
  | keywords v =>
    obtain ⟨hv, -⟩ := hf
    rw [renderFieldL, strip_label_line (by decide) (by decide) (by decide) hv]
    cases v with
    | nil =>
      simp only [List.isEmpty_nil, if_true, List.append_nil]
      have h := applyFieldLine_kw [] t
      rw [List.append_nil] at h
      rw [h]
      rfl
    | cons w ws =>
      simp only [List.isEmpty_cons, Bool.false_eq_true, if_false]
      rw [applyFieldLine_kw, pyStripL_space_cons hv]
      rfl
  | rationale v =>
    obtain ⟨hv, -⟩ := hf
    rw [renderFieldL, strip_label_line (by decide) (by decide) (by decide) hv]
    cases v with
    | nil =>
      simp only [List.isEmpty_nil, if_true, List.append_nil]
      have h := applyFieldLine_rat [] t
      rw [List.append_nil] at h
      rw [h]
      rfl
    | cons w ws =>
      simp only [List.isEmpty_cons, Bool.false_eq_true, if_false]
      rw [applyFieldLine_rat, pyStripL_space_cons hv]
      rfl
  | contentType v =>
    obtain ⟨hv, -⟩ := hf
    rw [renderFieldL, strip_label_line (by decide) (by decide) (by decide) hv]
    cases v with
    | nil =>
      simp only [List.isEmpty_nil, if_true, List.append_nil]
      have h := applyFieldLine_ct [] t
      rw [List.append_nil] at h
      rw [h]
      rfl
    | cons w ws =>
      simp only [List.isEmpty_cons, Bool.false_eq_true, if_false]
      rw [applyFieldLine_ct, pyStripL_space_cons hv]
      rfl

/-! ## Helper lemmas: composing the parser over rendered documents -/

theorem applyF_title (t : TopicIdea) (f : FLine) : (applyF t f).title = t.title := by
  cases f <;> rfl

theorem foldl_applyF_title (fs : List FLine) (t : TopicIdea) :
    (fs.foldl applyF t).title = t.title := by
  induction fs generalizing t with
  | nil => rfl
  | cons f fs ih => rw [List.foldl_cons, ih, applyF_title]

theorem expectedTopic_title (b : HeadingBlock) :
    (expectedTopic b).title = String.mk b.title :=
  foldl_applyF_title b.fields (mkTopic b.title)

theorem string_mk_ne_empty {l : List Char} (h : l ≠ []) : String.mk l ≠ "" := by
  intro he
  exact h (congrArg String.data he)

/-- Processing the rendered field lines of a block only folds the field
updates into the open record. -/
theorem parseGo_fields (fs : List FLine) (hfs : ∀ f ∈ fs, WFfield f)
    (rest : List (List Char)) (t : TopicIdea) (acc : List TopicIdea) :
    parseGo (fs.map renderFieldL ++ rest) (some t) acc
      = parseGo rest (some (fs.foldl applyF t)) acc := by
  induction fs generalizing t with
  | nil => simp
  | cons f fs ih =>
    have hf := hfs f (List.mem_cons_self f fs)
    simp only [List.map_cons, List.cons_append, List.foldl_cons]
    show parseGo (renderFieldL f :: (fs.map renderFieldL ++ rest)) (some t) acc = _
    simp only [parseGo]
    rw [fieldLine_titleMatch_none f]
    simp only []
    rw [fieldLine_apply f hf t]
    exact ih (fun x hx => hfs x (List.mem_cons_of_mem f hx)) (applyF t f)

/-- The rendered heading line of a well-formed block is already stripped. -/
theorem headingLine_trimmed {num title : List Char} (htne : title ≠ [])
    (htr : TrimmedL title) :
    TrimmedL ('#' :: '#' :: ' ' :: (num ++ '.' :: ' ' :: title)) := by
  refine trimmedL_of_head_rev_head (by simp) (by rw [List.headD_cons]; decide) ?_
  obtain ⟨e, es, he⟩ : ∃ e es, title.reverse = e :: es := by
    rcases hx : title.reverse with _ | ⟨e, es⟩
    · exact absurd (List.reverse_eq_nil_iff.mp hx) htne
    · exact ⟨e, es, rfl⟩
  have hshape : ('#' :: '#' :: ' ' :: (num ++ '.' :: ' ' :: title))
      = (['#', '#', ' '] ++ num ++ ['.', ' ']) ++ title := by
    simp [List.append_assoc]
  rw [hshape, List.reverse_append, he, List.cons_append, List.headD_cons]
  have := trimmed_rev_head_false htne htr
  rw [he] at this
  simpa using this

/-- Processing one rendered block: the previous record is flushed and the
block's expected record becomes the open record. -/
theorem parseGo_block (b : HeadingBlock) (hb : WFblock b) (rest : List (List Char))
    (cur : Option TopicIdea) (acc : List TopicIdea) :
    parseGo (renderBlockLines b ++ rest) cur acc
      = parseGo rest (some (expectedTopic b)) (acc ++ flushT cur) := by
  obtain ⟨hnum, hdig, htne, ⟨htr, -⟩, hfs⟩ := hb
  unfold renderBlockLines
  rw [List.cons_append]
  show parseGo (_ :: (b.fields.map renderFieldL ++ rest)) cur acc = _
  simp only [parseGo]
  rw [pyStripL_of_trimmed (headingLine_trimmed htne htr),
    titleMatchL_heading hnum hdig htne htr]
  simp only []
  rw [parseGo_fields b.fields hfs rest (mkTopic b.title) (acc ++ flushT cur)]
  rfl

/-- Folding `parseGo_block` over a whole rendered document. -/
theorem parseGo_doc (doc : List HeadingBlock) (hdoc : ∀ b ∈ doc, WFblock b)
    (cur : Option TopicIdea) (acc : List TopicIdea) :
    parseGo ((doc.map renderBlockLines).flatten) cur acc
      = acc ++ flushT cur ++ doc.map expectedTopic := by
  induction doc generalizing cur acc with
  | nil => simp [parseGo]
  | cons b bs ih =>
    simp only [List.map_cons, List.flatten_cons]
    rw [parseGo_block b (hdoc b (List.mem_cons_self b bs)) _ cur acc,
      ih (fun x hx => hdoc x (List.mem_cons_of_mem b hx))]
    have hne : (expectedTopic b).title ≠ "" := by
      rw [expectedTopic_title]
      exact string_mk_ne_empty (hdoc b (List.mem_cons_self b bs)).2.2.1
    have hflush : flushT (some (expectedTopic b)) = [expectedTopic b] := by
      simp [flushT, hne]
    rw [hflush]
    simp [List.append_assoc]

theorem isDig_ne_nl {c : Char} (h : isDig c = true) : ¬ c = '\n' := by
  rintro rfl
  revert h
  decide

/-- No rendered line of a well-formed document contains a newline. -/
theorem renderBlock_no_nl (b : HeadingBlock) (hb : WFblock b) :
    ∀ l ∈ renderBlockLines b, '\n' ∉ l := by
  obtain ⟨-, hdig, -, ⟨-, htnl⟩, hfs⟩ := hb
  intro l hl
  rcases List.mem_cons.mp hl with rfl | hm
  · intro hmem
    rcases List.mem_cons.mp hmem with h | hmem
    · exact absurd h (by decide)
    rcases List.mem_cons.mp hmem with h | hmem
    · exact absurd h (by decide)
    rcases List.mem_cons.mp hmem with h | hmem
    · exact absurd h (by decide)
    rcases List.mem_append.mp hmem with h | hmem
    · exact isDig_ne_nl (hdig _ h) rfl
    rcases List.mem_cons.mp hmem with h | hmem
    · exact absurd h (by decide)
    rcases List.mem_cons.mp hmem with h | hmem
    · exact absurd h (by decide)
    exact htnl hmem
  · obtain ⟨f, hf, rfl⟩ := List.mem_map.mp hm
    have hwf := hfs f hf
    intro hmem
    cases f with
    | angle v =>
      rw [renderFieldL] at hmem
      rcases List.mem_append.mp hmem with h | h
      · exact absurd h (by decide)
      · rcases List.mem_cons.mp h with h | h
        · exact absurd h (by decide)
        · exact hwf.2 h
    | keywords v =>
      rw [renderFieldL] at hmem
      rcases List.mem_append.mp hmem with h | h
      · exact absurd h (by decide)
      · rcases List.mem_cons.mp h with h | h
        · exact absurd h (by decide)
        · exact hwf.2 h
    | rationale v =>
      rw [renderFieldL] at hmem
      rcases List.mem_append.mp hmem with h | h
      · exact absurd h (by decide)
      · rcases List.mem_cons.mp h with h | h
        · exact absurd h (by decide)
        · exact hwf.2 h
    | contentType v =>
      rw [renderFieldL] at hmem
      rcases List.mem_append.mp hmem with h | h
      · exact absurd h (by decide)
      · rcases List.mem_cons.mp h with h | h
        · exact absurd h (by decide)
        · exact hwf.2 h

/-- Parsing a rendered well-formed document recovers exactly the expected
records, one per heading block, in order. -/
theorem parse_renderDoc (doc : List HeadingBlock) (hdoc : ∀ b ∈ doc, WFblock b) :
    parse_topic_ideas (renderDoc doc) = doc.map expectedTopic := by
  unfold parse_topic_ideas renderDoc
  show parseGo (splitOnC '\n' (joinC '\n' (doc.map renderBlockLines).flatten)) none [] = _
  cases doc with
  | nil => rfl
  | cons b bs =>
    have hne : (((b :: bs).map renderBlockLines).flatten) ≠ [] := by
      simp [renderBlockLines]
    have hnl : ∀ l ∈ ((b :: bs).map renderBlockLines).flatten, '\n' ∉ l := by
      intro l hl
      obtain ⟨L, hL, hlL⟩ := List.mem_flatten.mp hl
      obtain ⟨b', hb', rfl⟩ := List.mem_map.mp hL
      exact renderBlock_no_nl b' (hdoc b' hb') l hlL
    rw [splitOnC_joinC '\n' _ hnl hne, parseGo_doc _ hdoc none []]
    simp [flushT]

/-- Number of lines of a raw output that match the title pattern. -/
def titleLineCount (raw : String) : Nat :=
  ((splitOnC '\n' raw.toList).filter (fun l => (titleMatchL (pyStripL l)).isSome)).length

theorem flushT_length_le (cur : Option TopicIdea) : (flushT cur).length ≤ 1 := by
  cases cur with
  | none => simp [flushT]
  | some t =>
    simp only [flushT]
    split_ifs <;> simp

theorem flushT_length_apply (s : List Char) (c : TopicIdea) :
    (flushT (some (applyFieldLine s c))).length = (flushT (some c)).length := by
  simp only [flushT, applyFieldLine_title]
  split_ifs <;> rfl

theorem parseGo_length (lines : List (List Char)) :
    ∀ (cur : Option TopicIdea) (acc : List TopicIdea),
      (parseGo lines cur acc).length
        ≤ acc.length + (flushT cur).length
            + (lines.filter (fun l => (titleMatchL (pyStripL l)).isSome)).length := by
  induction lines with
  | nil =>
    intro cur acc
    simp [parseGo]
  | cons l ls ih =>
    intro cur acc
    simp only [parseGo]
    cases htm : titleMatchL (pyStripL l) with
    | some tt =>
      simp only []
      have h1 := ih (some (mkTopic tt)) (acc ++ flushT cur)
      have h2 := flushT_length_le (some (mkTopic tt))
      have h3 : (List.filter (fun l => (titleMatchL (pyStripL l)).isSome) (l :: ls)).length
          = (List.filter (fun l => (titleMatchL (pyStripL l)).isSome) ls).length + 1 := by
        simp [List.filter_cons, htm]
      rw [h3]
      simp only [List.length_append] at h1
      omega
    | none =>
      cases cur with
      | none =>
        simp only []
        have h1 := ih none acc
        have h3 : (List.filter (fun l => (titleMatchL (pyStripL l)).isSome) (l :: ls)).length
            = (List.filter (fun l => (titleMatchL (pyStripL l)).isSome) ls).length := by
          simp [List.filter_cons, htm]
        rw [h3]
        exact h1
      | some c =>
        simp only []
        have h1 := ih (some (applyFieldLine (pyStripL l) c)) acc
        rw [flushT_length_apply] at h1
        have h3 : (List.filter (fun l => (titleMatchL (pyStripL l)).isSome) (l :: ls)).length
            = (List.filter (fun l => (titleMatchL (pyStripL l)).isSome) ls).length := by
          simp [List.filter_cons, htm]
        rw [h3]
        exact h1

theorem parse_length_le (raw : String) :
    (parse_topic_ideas raw).length ≤ titleLineCount raw := by
  have h := parseGo_length (splitOnC '\n' raw.toList) none []
  simpa [parse_topic_ideas, titleLineCount, flushT] using h

theorem flushT_title {x : TopicIdea} {cur : Option TopicIdea} (h : x ∈ flushT cur) :
    x.title ≠ "" := by
  cases cur with
  | none => simp [flushT] at h
  | some t =>
    simp only [flushT] at h
    split_ifs at h with ht
    · rw [List.mem_singleton.mp h]
      exact ht
    · simp at h

theorem parseGo_titles (lines : List (List Char)) :
    ∀ (cur : Option TopicIdea) (acc : List TopicIdea),
      (∀ x ∈ acc, x.title ≠ "") → ∀ t ∈ parseGo lines cur acc, t.title ≠ "" := by
  induction lines with
  | nil =>
    intro cur acc hacc t ht
    simp only [parseGo] at ht
    rcases List.mem_append.mp ht with h | h
    · exact hacc t h
    · exact flushT_title h
  | cons l ls ih =>
    intro cur acc hacc t ht
    simp only [parseGo] at ht
    cases htm : titleMatchL (pyStripL l) with
    | some tt =>
      rw [htm] at ht
      simp only [] at ht
      refine ih _ _ ?_ t ht
      intro x hx
      rcases List.mem_append.mp hx with h | h
      · exact hacc x h
      · exact flushT_title h
    | none =>
      rw [htm] at ht
      cases cur with
      | none => exact ih none acc hacc t ht
      | some c => exact ih _ acc hacc t ht

/-! ## Claim theorems: the output parser -/

/-- C2: for every model output that follows the documented heading
convention (numbered title headings, each followed by bolded field-label
lines), `_parse_topic_ideas` returns one record per numbered heading, in
input order, with every labelled field populated from its line and every
unlabelled field defaulted to the empty value; and on every input string
the parser is total (it is a plain function here) and returns a list with
at most one record per title-matching line (so unparseable input just
yields a shorter or empty list, never an error). -/
theorem parse_follows_heading_convention :
    (∀ doc : List HeadingBlock, (∀ b ∈ doc, WFblock b) →
        parse_topic_ideas (renderDoc doc) = doc.map expectedTopic)
    ∧ ∀ raw : String, (parse_topic_ideas raw).length ≤ titleLineCount raw :=
  ⟨parse_renderDoc, parse_length_le⟩

/-- A concrete two-block convention document. -/
def c2doc : List HeadingBlock :=
  [⟨['1'], "First Post".toList,
    [FLine.angle "A fresh view".toList, FLine.keywords "k1, k2".toList]⟩,
   ⟨['2'], "Second".toList, []⟩]

theorem parse_follows_heading_convention_witness :
    parse_topic_ideas (renderDoc c2doc)
      = [⟨"First Post", "A fresh view", ["k1", "k2"], "", ""⟩,
         ⟨"Second", "", [], "", ""⟩] := by
  rw [parse_follows_heading_convention.1 c2doc (by decide)]
  decide

/-- C10: every record returned by `_parse_topic_ideas`, on any input, has
a nonempty title (the append guard `current_topic.get('title')` and the
regex's nonempty group make a title-less record impossible), and — by the
type of `TopicIdea` — exactly the five fields `title`, `angle`,
`keywords`, `rationale`, `content_type`. -/
theorem parsed_topics_title_nonempty :
    ∀ (raw : String) (t : TopicIdea), t ∈ parse_topic_ideas raw → t.title ≠ "" :=
  fun _ t ht => parseGo_titles _ none [] (by simp) t ht

theorem parsed_topics_title_nonempty_witness :
    (TopicIdea.mk "Hash one" "" [] "" "").title ≠ "" :=
  parsed_topics_title_nonempty "#1. Hash one" _ (by decide)

/-! ## Helper lemmas and line model for the app_v2 reconstruction (C5) -/

theorem toList_append (a b : String) : (a ++ b).toList = a.toList ++ b.toList :=
  String.data_append a b

/-- The fixed header line of the export. -/
def mdHeaderLine : List Char := "# Generated Topic Ideas".toList
/-- The angle label as the export writes it, colon inside the bold markers. -/
def mdAnglePfx : List Char := "- **Angle:**".toList
/-- The keywords label as the export writes it. -/
def mdKwPfx : List Char := "- **Keywords:**".toList
/-- The rationale label as the export writes it. -/
def mdRatPfx : List Char := "- **Rationale:**".toList
/-- The content-type label as the export writes it. -/
def mdCtPfx : List Char := "- **Content Type:**".toList

/-- The seven lines contributed by `mdTopicBlock i t` (the block ends with
`\n\n`, whose second newline opens the next line). -/
def mdBlockLines (i : Nat) (t : TopicIdea) : List (List Char) :=
  [ '#' :: '#' :: ' ' :: (natDigits (i + 1) ++ '.' :: ' ' :: t.title.toList),
    [],
    mdAnglePfx ++ ' ' :: t.angle.toList,
    mdKwPfx ++ ' ' :: (String.intercalate ", " t.keywords).toList,
    mdRatPfx ++ ' ' :: t.rationale.toList,
    mdCtPfx ++ ' ' :: t.content_type.toList,
    [] ]

/-- Lines of the blocks from index `i` on, with the final empty line. -/
def mdLinesAux : Nat → List TopicIdea → List (List Char)
  | _, [] => [[]]
  | i, t :: ts => mdBlockLines i t ++ mdLinesAux (i + 1) ts

/-- All lines of `mdContent topics`. -/
def mdLines (topics : List TopicIdea) : List (List Char) :=
  mdHeaderLine :: [] :: mdLinesAux 0 topics

/-- The block strings from index `i` on. -/
def mdJoinAux : Nat → List TopicIdea → String
  | _, [] => ""
  | i, t :: ts => mdTopicBlock i t ++ mdJoinAux (i + 1) ts

/-- A topic record whose reconstruction stays line-per-field: nonempty
stripped single-line title and newline-free field values. -/
def WFmdTopic (t : TopicIdea) : Prop :=
  t.title ≠ "" ∧ TrimmedL t.title.toList ∧ '\n' ∉ t.title.toList
    ∧ '\n' ∉ t.angle.toList ∧ (∀ k ∈ t.keywords, '\n' ∉ k.toList)
    ∧ '\n' ∉ t.rationale.toList ∧ '\n' ∉ t.content_type.toList

instance (t : TopicIdea) : Decidable (WFmdTopic t) :=
  decidable_of_iff
    (t.title ≠ "" ∧ TrimmedL t.title.toList ∧ '\n' ∉ t.title.toList
      ∧ '\n' ∉ t.angle.toList ∧ (∀ k ∈ t.keywords, '\n' ∉ k.toList)
      ∧ '\n' ∉ t.rationale.toList ∧ '\n' ∉ t.content_type.toList) Iff.rfl

theorem intercalate_go_no_nl (acc : String) (as : List String)
    (hacc : '\n' ∉ acc.toList) (has : ∀ a ∈ as, '\n' ∉ a.toList) :
    '\n' ∉ (String.intercalate.go acc ", " as).toList := by
  induction as generalizing acc with
  | nil => exact hacc
  | cons a as ih =>
    show '\n' ∉ (String.intercalate.go (acc ++ ", " ++ a) ", " as).toList
    refine ih _ ?_ (fun x hx => has x (List.mem_cons_of_mem a hx))
    rw [toList_append, toList_append]
    intro hm
    rcases List.mem_append.mp hm with hm | hm
    · rcases List.mem_append.mp hm with hm | hm
      · exact hacc hm
      · exact absurd hm (by decide)
    · exact has a (List.mem_cons_self a as) hm

theorem intercalate_comma_no_nl (ks : List String)
    (h : ∀ k ∈ ks, '\n' ∉ k.toList) :
    '\n' ∉ (String.intercalate ", " ks).toList := by
  cases ks with
  | nil => simp [String.intercalate]
  | cons a as =>
    show '\n' ∉ (String.intercalate.go a ", " as).toList
    exact intercalate_go_no_nl a as (h a (List.mem_cons_self a as))
      (fun x hx => h x (List.mem_cons_of_mem a hx))

theorem mdContent_eq_aux (topics : List TopicIdea) :
    mdContent topics = "# Generated Topic Ideas\n\n" ++ mdJoinAux 0 topics := by
  have key : ∀ (ts : List TopicIdea) (i : Nat) (s : String),
      List.foldl (fun md p => md ++ mdTopicBlock p.1 p.2) s (List.enumFrom i ts)
        = s ++ mdJoinAux i ts := by
    intro ts
    induction ts with
    | nil => intro i s; simp [List.enumFrom, mdJoinAux]
    | cons t ts ih =>
      intro i s
      show List.foldl _ _ ((i, t) :: List.enumFrom (i + 1) ts) = _
      rw [List.foldl_cons, ih (i + 1)]
      show (s ++ mdTopicBlock i t) ++ mdJoinAux (i + 1) ts = s ++ mdJoinAux i (t :: ts)
      rw [String.append_assoc]
      rfl
  unfold mdContent
  rw [show topics.enum = List.enumFrom 0 topics from rfl, key]

theorem mdLinesAux_ne_nil (i : Nat) (ts : List TopicIdea) : mdLinesAux i ts ≠ [] := by
  cases ts <;> simp [mdLinesAux, mdBlockLines]

theorem mdJoinAux_toList (ts : List TopicIdea) :
    ∀ i : Nat, (mdJoinAux i ts).toList = joinC '\n' (mdLinesAux i ts) := by
  induction ts with
  | nil => intro i; rfl
  | cons t ts ih =>
    intro i
    show (mdTopicBlock i t ++ mdJoinAux (i + 1) ts).toList = _
    rw [toList_append, ih (i + 1)]
    show _ = joinC '\n' (mdBlockLines i t ++ mdLinesAux (i + 1) ts)
    rw [joinC_append '\n' _ _ (by simp [mdBlockLines]) (mdLinesAux_ne_nil _ _)]
    unfold mdTopicBlock
    simp only [toList_append]
    rw [show "## ".toList = ['#', '#', ' '] from rfl,
      show ". ".toList = ['.', ' '] from rfl,
      show "\n\n".toList = ['\n', '\n'] from rfl,
      show "\n".toList = ['\n'] from rfl,
      show "- **Angle:** ".toList = mdAnglePfx ++ [' '] from rfl,
      show "- **Keywords:** ".toList = mdKwPfx ++ [' '] from rfl,
      show "- **Rationale:** ".toList = mdRatPfx ++ [' '] from rfl,
      show "- **Content Type:** ".toList = mdCtPfx ++ [' '] from rfl,
      show (pyRepr (i + 1)).toList = natDigits (i + 1) from rfl]
    show _ = joinC '\n' [_, _, _, _, _, _, _] ++ '\n' :: joinC '\n' (mdLinesAux (i + 1) ts)
    simp [joinC, List.append_assoc, List.cons_append]

theorem mdContent_toList (topics : List TopicIdea) :
    (mdContent topics).toList = joinC '\n' (mdLines topics) := by
  rw [mdContent_eq_aux, toList_append, mdJoinAux_toList topics 0]
  show "# Generated Topic Ideas\n\n".toList ++ _ = joinC '\n' (mdHeaderLine :: [] :: mdLinesAux 0 topics)
  rcases hx : mdLinesAux 0 topics with _ | ⟨l, ls⟩
  · exact absurd hx (mdLinesAux_ne_nil 0 topics)
  · show _ = joinC '\n' (mdHeaderLine :: [] :: l :: ls)
    rw [show "# Generated Topic Ideas\n\n".toList = mdHeaderLine ++ ['\n', '\n'] from rfl]
    simp [joinC, List.append_assoc]

/-! ## Parsing the app_v2 reconstruction -/

/-- A line that neither matches the title pattern nor any field label is a
no-op for the parser loop. -/
theorem parseGo_noop_line (L : List Char)
    (hnone : titleMatchL (pyStripL L) = none)
    (hid : ∀ t, applyFieldLine (pyStripL L) t = t)
    (ls : List (List Char)) (cur : Option TopicIdea) (acc : List TopicIdea) :
    parseGo (L :: ls) cur acc = parseGo ls cur acc := by
  simp only [parseGo, hnone]
  cases cur with
  | none => rfl
  | some c =>
    show parseGo ls (some (applyFieldLine (pyStripL L) c)) acc = parseGo ls (some c) acc
    rw [hid c]

theorem blank_line_noop : titleMatchL (pyStripL []) = none ∧
    ∀ t : TopicIdea, applyFieldLine (pyStripL []) t = t :=
  ⟨by decide, fun t => applyFieldLine_nil t⟩

/-- A line whose stripped form matches the title pattern flushes the open
record and opens a fresh one. -/
theorem parseGo_title_line (L : List Char) (tt : List Char)
    (h : titleMatchL (pyStripL L) = some tt)
    (ls : List (List Char)) (cur : Option TopicIdea) (acc : List TopicIdea) :
    parseGo (L :: ls) cur acc = parseGo ls (some (mkTopic tt)) (acc ++ flushT cur) := by
  simp only [parseGo, h]

/-- The stripped form of an `app_v2`-style labelled line (colon inside the
bold markers) matches no parser label and no title pattern, for all four
labels. -/
theorem mdAngle_line_noop (v : List Char) :
    titleMatchL (pyStripL (mdAnglePfx ++ ' ' :: v)) = none
      ∧ ∀ t, applyFieldLine (pyStripL (mdAnglePfx ++ ' ' :: v)) t = t := by
  rw [show mdAnglePfx = '-' :: " **Angle:**".toList from by decide]
  obtain ⟨Y, hY⟩ :=
    pyStripL_append_shape (c := '-') (q := " **Angle:**".toList) (' ' :: v)
      (by decide) (by decide)
  rw [hY]
  constructor
  · rw [List.cons_append]
    exact titleMatchL_none_of_head _ (by decide) (by decide) (by decide)
  · intro t
    exact applyFieldLine_no_label t
      (isPrefixOf_false_append Y (by decide) (by decide))
      (isPrefixOf_false_append Y (by decide) (by decide))
      (isPrefixOf_false_append Y (by decide) (by decide))
      (isPrefixOf_false_append Y (by decide) (by decide))
      (isPrefixOf_false_append Y (by decide) (by decide))
      (isPrefixOf_false_append Y (by decide) (by decide))
      (isPrefixOf_false_append Y (by decide) (by decide))
      (isPrefixOf_false_append Y (by decide) (by decide))

theorem mdKw_line_noop (v : List Char) :
    titleMatchL (pyStripL (mdKwPfx ++ ' ' :: v)) = none
      ∧ ∀ t, applyFieldLine (pyStripL (mdKwPfx ++ ' ' :: v)) t = t := by
  rw [show mdKwPfx = '-' :: " **Keywords:**".toList from by decide]
  obtain ⟨Y, hY⟩ :=
    pyStripL_append_shape (c := '-') (q := " **Keywords:**".toList) (' ' :: v)
      (by decide) (by decide)
  rw [hY]
  constructor
  · rw [List.cons_append]
    exact titleMatchL_none_of_head _ (by decide) (by decide) (by decide)
  · intro t
    exact applyFieldLine_no_label t
      (isPrefixOf_false_append Y (by decide) (by decide))
      (isPrefixOf_false_append Y (by decide) (by decide))
      (isPrefixOf_false_append Y (by decide) (by decide))
      (isPrefixOf_false_append Y (by decide) (by decide))
      (isPrefixOf_false_append Y (by decide) (by decide))
      (isPrefixOf_false_append Y (by decide) (by decide))
      (isPrefixOf_false_append Y (by decide) (by decide))
      (isPrefixOf_false_append Y (by decide) (by decide))

theorem mdRat_line_noop (v : List Char) :
    titleMatchL (pyStripL (mdRatPfx ++ ' ' :: v)) = none
      ∧ ∀ t, applyFieldLine (pyStripL (mdRatPfx ++ ' ' :: v)) t = t := by
  rw [show mdRatPfx = '-' :: " **Rationale:**".toList from by decide]
  obtain ⟨Y, hY⟩ :=
    pyStripL_append_shape (c := '-') (q := " **Rationale:**".toList) (' ' :: v)
      (by decide) (by decide)
  rw [hY]
  constructor
  · rw [List.cons_append]
    exact titleMatchL_none_of_head _ (by decide) (by decide) (by decide)
  · intro t
    exact applyFieldLine_no_label t
      (isPrefixOf_false_append Y (by decide) (by decide))
      (isPrefixOf_false_append Y (by decide) (by decide))
      (isPrefixOf_false_append Y (by decide) (by decide))
      (isPrefixOf_false_append Y (by decide) (by decide))
      (isPrefixOf_false_append Y (by decide) (by decide))
      (isPrefixOf_false_append Y (by decide) (by decide))
      (isPrefixOf_false_append Y (by decide) (by decide))
      (isPrefixOf_false_append Y (by decide) (by decide))

theorem mdCt_line_noop (v : List Char) :
    titleMatchL (pyStripL (mdCtPfx ++ ' ' :: v)) = none
      ∧ ∀ t, applyFieldLine (pyStripL (mdCtPfx ++ ' ' :: v)) t = t := by
  rw [show mdCtPfx = '-' :: " **Content Type:**".toList from by decide]
  obtain ⟨Y, hY⟩ :=
    pyStripL_append_shape (c := '-') (q := " **Content Type:**".toList) (' ' :: v)
      (by decide) (by decide)
  rw [hY]
  constructor
  · rw [List.cons_append]
    exact titleMatchL_none_of_head _ (by decide) (by decide) (by decide)
  · intro t
    exact applyFieldLine_no_label t
      (isPrefixOf_false_append Y (by decide) (by decide))
      (isPrefixOf_false_append Y (by decide) (by decide))
      (isPrefixOf_false_append Y (by decide) (by decide))
      (isPrefixOf_false_append Y (by decide) (by decide))
      (isPrefixOf_false_append Y (by decide) (by decide))
      (isPrefixOf_false_append Y (by decide) (by decide))
      (isPrefixOf_false_append Y (by decide) (by decide))
      (isPrefixOf_false_append Y (by decide) (by decide))

/-- Processing one app_v2 block: the heading opens a record; none of the
field lines touch it. -/
theorem mdBlock_parse (i : Nat) (t : TopicIdea) (hwf : WFmdTopic t)
    (rest : List (List Char)) (cur : Option TopicIdea) (acc : List TopicIdea) :
    parseGo (mdBlockLines i t ++ rest) cur acc
      = parseGo rest (some (TopicIdea.mk t.title "" [] "" "")) (acc ++ flushT cur) := by
  obtain ⟨htne, htr, -, -, -, -, -⟩ := hwf
  have htne' : t.title.toList ≠ [] := by
    intro h
    exact htne (congrArg String.mk h)
  unfold mdBlockLines
  simp only [List.cons_append, List.nil_append]
  rw [parseGo_title_line _ _ (by
      rw [pyStripL_of_trimmed (headingLine_trimmed htne' htr)]
      exact titleMatchL_heading (natDigits_ne_nil (i + 1)) (natDigits_all_dig (i + 1))
        htne' htr)]
  rw [parseGo_noop_line _ blank_line_noop.1 blank_line_noop.2,
    parseGo_noop_line _ (mdAngle_line_noop _).1 (mdAngle_line_noop _).2,
    parseGo_noop_line _ (mdKw_line_noop _).1 (mdKw_line_noop _).2,
    parseGo_noop_line _ (mdRat_line_noop _).1 (mdRat_line_noop _).2,
    parseGo_noop_line _ (mdCt_line_noop _).1 (mdCt_line_noop _).2,
    parseGo_noop_line _ blank_line_noop.1 blank_line_noop.2]
  rfl

/-- Folding `mdBlock_parse` over the reconstruction's blocks. -/
theorem mdLinesAux_parse (ts : List TopicIdea) (hts : ∀ t ∈ ts, WFmdTopic t) :
    ∀ (i : Nat) (cur : Option TopicIdea) (acc : List TopicIdea),
      parseGo (mdLinesAux i ts) cur acc
        = acc ++ flushT cur ++ ts.map (fun t => TopicIdea.mk t.title "" [] "" "") := by
  induction ts with
  | nil =>
    intro i cur acc
    show parseGo [[]] cur acc = _
    rw [parseGo_noop_line _ blank_line_noop.1 blank_line_noop.2]
    simp [parseGo]
  | cons t ts ih =>
    intro i cur acc
    show parseGo (mdBlockLines i t ++ mdLinesAux (i + 1) ts) cur acc = _
    rw [mdBlock_parse i t (hts t (List.mem_cons_self t ts)) _ cur acc,
      ih (fun x hx => hts x (List.mem_cons_of_mem t hx)) (i + 1)]
    have hflush : flushT (some (TopicIdea.mk t.title "" [] "" ""))
        = [TopicIdea.mk t.title "" [] "" ""] := by
      simp [flushT, (hts t (List.mem_cons_self t ts)).1]
    rw [hflush]
    simp [List.append_assoc]

theorem mdLinesAux_no_nl (ts : List TopicIdea) (hts : ∀ t ∈ ts, WFmdTopic t) :
    ∀ (i : Nat), ∀ l ∈ mdLinesAux i ts, '\n' ∉ l := by
  induction ts with
  | nil =>
    intro i l hl
    simp only [mdLinesAux, List.mem_singleton] at hl
    subst hl
    simp
  | cons t ts ih =>
    intro i l hl
    obtain ⟨-, -, htnl, hanl, hknl, hrnl, hcnl⟩ := hts t (List.mem_cons_self t ts)
    have hl' : l ∈ mdBlockLines i t ++ mdLinesAux (i + 1) ts := hl
    rcases List.mem_append.mp hl' with hm | hm
    · simp only [mdBlockLines, List.mem_cons, List.mem_singleton] at hm
      rcases hm with rfl | rfl | rfl | rfl | rfl | rfl | rfl | h
      · intro hmem
        rcases List.mem_cons.mp hmem with h | hmem
        · exact absurd h (by decide)
        rcases List.mem_cons.mp hmem with h | hmem
        · exact absurd h (by decide)
        rcases List.mem_cons.mp hmem with h | hmem
        · exact absurd h (by decide)
        rcases List.mem_append.mp hmem with h | hmem
        · exact isDig_ne_nl (natDigits_all_dig (i + 1) _ h) rfl
        rcases List.mem_cons.mp hmem with h | hmem
        · exact absurd h (by decide)
        rcases List.mem_cons.mp hmem with h | hmem
        · exact absurd h (by decide)
        exact htnl hmem
      · simp
      · intro hmem
        rcases List.mem_append.mp hmem with h | hmem
        · exact absurd h (by decide)
        rcases List.mem_cons.mp hmem with h | hmem
        · exact absurd h (by decide)
        exact hanl hmem
      · intro hmem
        rcases List.mem_append.mp hmem with h | hmem
        · exact absurd h (by decide)
        rcases List.mem_cons.mp hmem with h | hmem
        · exact absurd h (by decide)
        exact intercalate_comma_no_nl t.keywords hknl hmem
      · intro hmem
        rcases List.mem_append.mp hmem with h | hmem
        · exact absurd h (by decide)
        rcases List.mem_cons.mp hmem with h | hmem
        · exact absurd h (by decide)
        exact hrnl hmem
      · intro hmem
        rcases List.mem_append.mp hmem with h | hmem
        · exact absurd h (by decide)
        rcases List.mem_cons.mp hmem with h | hmem
        · exact absurd h (by decide)
        exact hcnl hmem
      · simp
      · exact absurd h (List.not_mem_nil l)
    · exact ih (fun x hx => hts x (List.mem_cons_of_mem t hx)) (i + 1) l hm

theorem mdLines_no_nl (ts : List TopicIdea) (hts : ∀ t ∈ ts, WFmdTopic t) :
    ∀ l ∈ mdLines ts, '\n' ∉ l := by
  intro l hl
  rcases List.mem_cons.mp hl with rfl | hl
  · decide
  rcases List.mem_cons.mp hl with rfl | hl
  · simp
  exact mdLinesAux_no_nl ts hts 0 l hl

theorem header_line_noop : titleMatchL (pyStripL mdHeaderLine) = none ∧
    ∀ t : TopicIdea, applyFieldLine (pyStripL mdHeaderLine) t = t := by
  constructor
  · decide
  · intro t
    exact applyFieldLine_no_label t (by decide) (by decide) (by decide) (by decide)
      (by decide) (by decide) (by decide) (by decide)

/-! ## Claim theorems: the app_v2 reconstruction round trip -/

/-- C5 (amended): re-parsing the app's own markdown reconstruction of `N`
well-formed records yields `N` records with the same titles in the same
order, but with every other field reset to its empty default, because the
reconstruction writes its labels as `**Angle:**` (colon inside the bold
markers) while the parser only recognises `**Angle**:` (colon after the
bold markers). -/
theorem parse_mdContent_titles_only :
    ∀ ts : List TopicIdea, (∀ t ∈ ts, WFmdTopic t) →
      parse_topic_ideas (mdContent ts)
        = ts.map (fun t => TopicIdea.mk t.title "" [] "" "") := by
  intro ts hts
  unfold parse_topic_ideas
  rw [show (mdContent ts).toList = joinC '\n' (mdLines ts) from mdContent_toList ts,
    splitOnC_joinC '\n' _ (mdLines_no_nl ts hts) (by simp [mdLines])]
  show parseGo (mdHeaderLine :: [] :: mdLinesAux 0 ts) none [] = _
  rw [parseGo_noop_line _ header_line_noop.1 header_line_noop.2,
    parseGo_noop_line _ blank_line_noop.1 blank_line_noop.2,
    mdLinesAux_parse ts hts 0 none []]
  rfl

/-- C5 (counterexample to the claim as stated): one fully populated record
does not survive the reconstruction round trip — the parse is not the
identity on the reconstruction. -/
theorem parse_mdContent_not_roundtrip :
    parse_topic_ideas (mdContent [⟨"T", "A", ["k"], "R", "Guide"⟩])
      ≠ [⟨"T", "A", ["k"], "R", "Guide"⟩] := by
  decide

theorem parse_mdContent_titles_only_witness :
    parse_topic_ideas (mdContent [⟨"T", "A", ["k"], "R", "Guide"⟩])
      = [⟨"T", "", [], "", ""⟩] := by
  rw [parse_mdContent_titles_only [⟨"T", "A", ["k"], "R", "Guide"⟩] (by decide)]
  rfl

/-! ## Claim theorems: prompt truncation and optional sections -/

theorem strContains_of_split (pre needle post : String) :
    strContains (pre ++ needle ++ post) needle = true := by
  unfold strContains
  have h : (pre ++ needle ++ post).toList
      = pre.toList ++ (needle.toList ++ post.toList) := by
    rw [toList_append, toList_append, List.append_assoc]
  rw [h]
  exact containsSeg_of_append _ _ _

/-- C1 (amended): with more than 50 existing topics, the duplication
section contains the first 50 titles (in input order, as the rendered
bullet block) plus a correctly computed `(and N more...)` note with
`N = length - 50`; with more than 10 keywords, the keyword section
contains exactly the first 10 keywords but no overflow note — the section
only depends on the first 10 keywords, so the truncation is silent. -/
theorem topic_cap_noted_keyword_cap_silent :
    ∀ (ks ts : List String), 10 < ks.length → 50 < ts.length →
      strContains (build_duplication_context (some ts))
          (String.intercalate "\n"
            ((ts.take MAX_EXISTING_TOPICS).map (fun title => "- " ++ title))) = true
      ∧ strContains (build_duplication_context (some ts))
          ("(and " ++ pyRepr (ts.length - MAX_EXISTING_TOPICS) ++ " more...)") = true
      ∧ build_keyword_context (some ks) = build_keyword_context (some (ks.take MAX_KEYWORDS))
      ∧ strContains (build_keyword_context (some ks))
          (String.intercalate ", " (ks.take MAX_KEYWORDS)) = true := by
  intro ks ts hks hts
  obtain ⟨k, ks', rfl⟩ : ∃ k ks', ks = k :: ks' := by
    cases ks with
    | nil => simp at hks
    | cons k ks' => exact ⟨k, ks', rfl⟩
  obtain ⟨t, ts', rfl⟩ : ∃ t ts', ts = t :: ts' := by
    cases ts with
    | nil => simp at hts
    | cons t ts' => exact ⟨t, ts', rfl⟩
  have hover : (t :: ts').length - MAX_EXISTING_TOPICS > 0 := by
    simp only [MAX_EXISTING_TOPICS]
    omega
  have hdup : build_duplication_context (some (t :: ts'))
      = "\n\nEXISTING BLOG POSTS TO AVOID DUPLICATING:\n"
        ++ String.intercalate "\n"
            (((t :: ts').take MAX_EXISTING_TOPICS).map (fun title => "- " ++ title))
        ++ "\n"
        ++ ("(and " ++ pyRepr ((t :: ts').length - MAX_EXISTING_TOPICS) ++ " more...)")
        ++ "\n\nCRITICAL: Do NOT suggest topics that are too similar to these existing posts. Generate completely new angles and subjects.\n" := by
    show (let topics_sample := (t :: ts').take MAX_EXISTING_TOPICS
          let overflow_count := (t :: ts').length - MAX_EXISTING_TOPICS
          let overflow_text :=
            if overflow_count > 0 then "(and " ++ pyRepr overflow_count ++ " more...)" else ""
          "\n\nEXISTING BLOG POSTS TO AVOID DUPLICATING:\n"
            ++ String.intercalate "\n" (topics_sample.map (fun title => "- " ++ title))
            ++ "\n" ++ overflow_text
            ++ "\n\nCRITICAL: Do NOT suggest topics that are too similar to these existing posts. Generate completely new angles and subjects.\n") = _
    simp only [if_pos hover]
  refine ⟨?_, ?_, ?_, ?_⟩
  · unfold strContains
    rw [hdup]
    have hsplit : ("\n\nEXISTING BLOG POSTS TO AVOID DUPLICATING:\n"
        ++ String.intercalate "\n"
            (((t :: ts').take MAX_EXISTING_TOPICS).map (fun title => "- " ++ title))
        ++ "\n"
        ++ ("(and " ++ pyRepr ((t :: ts').length - MAX_EXISTING_TOPICS) ++ " more...)")
        ++ "\n\nCRITICAL: Do NOT suggest topics that are too similar to these existing posts. Generate completely new angles and subjects.\n").toList
        = ("\n\nEXISTING BLOG POSTS TO AVOID DUPLICATING:\n").toList
          ++ ((String.intercalate "\n"
              (((t :: ts').take MAX_EXISTING_TOPICS).map (fun title => "- " ++ title))).toList
            ++ (("\n"
              ++ ("(and " ++ pyRepr ((t :: ts').length - MAX_EXISTING_TOPICS) ++ " more...)")
              ++ "\n\nCRITICAL: Do NOT suggest topics that are too similar to these existing posts. Generate completely new angles and subjects.\n").toList)) := by
      simp [toList_append, List.append_assoc]
    rw [hsplit]
    exact containsSeg_of_append _ _ _
  · unfold strContains
    rw [hdup]
    have hsplit : ("\n\nEXISTING BLOG POSTS TO AVOID DUPLICATING:\n"
        ++ String.intercalate "\n"
            (((t :: ts').take MAX_EXISTING_TOPICS).map (fun title => "- " ++ title))
        ++ "\n"
        ++ ("(and " ++ pyRepr ((t :: ts').length - MAX_EXISTING_TOPICS) ++ " more...)")
        ++ "\n\nCRITICAL: Do NOT suggest topics that are too similar to these existing posts. Generate completely new angles and subjects.\n").toList
        = (("\n\nEXISTING BLOG POSTS TO AVOID DUPLICATING:\n").toList
            ++ (String.intercalate "\n"
              (((t :: ts').take MAX_EXISTING_TOPICS).map (fun title => "- " ++ title))).toList
            ++ ("\n").toList)
          ++ ((("(and " ++ pyRepr ((t :: ts').length - MAX_EXISTING_TOPICS) ++ " more...)").toList)
            ++ ("\n\nCRITICAL: Do NOT suggest topics that are too similar to these existing posts. Generate completely new angles and subjects.\n").toList) := by
      simp [toList_append, List.append_assoc]
    rw [hsplit]
    exact containsSeg_of_append _ _ _
  · have h1 : build_keyword_context (some (k :: ks'))
        = "\n\nTARGET KEYWORDS TO INCORPORATE:\nThese keywords should be incorporated into the topic ideas for SEO. Try to build topics around these:\n"
          ++ String.intercalate ", " ((k :: ks').take MAX_KEYWORDS) ++ "\n" := rfl
    have htake : (k :: ks').take MAX_KEYWORDS = k :: ks'.take 9 := rfl
    have h2 : build_keyword_context (some ((k :: ks').take MAX_KEYWORDS))
        = "\n\nTARGET KEYWORDS TO INCORPORATE:\nThese keywords should be incorporated into the topic ideas for SEO. Try to build topics around these:\n"
          ++ String.intercalate ", " (((k :: ks').take MAX_KEYWORDS).take MAX_KEYWORDS) ++ "\n" := by
      rw [htake]
      rfl
    rw [h1, h2, List.take_take, min_self]
  · have h1 : build_keyword_context (some (k :: ks'))
        = "\n\nTARGET KEYWORDS TO INCORPORATE:\nThese keywords should be incorporated into the topic ideas for SEO. Try to build topics around these:\n"
          ++ String.intercalate ", " ((k :: ks').take MAX_KEYWORDS) ++ "\n" := rfl
    rw [h1]
    exact strContains_of_split _ _ _

/-- C1 (counterexample to the claim as stated): an 11-keyword list is
truncated to 10 with no `(and 1 more...)` note — the keyword section of
the prompt contains no overflow note at all. -/
theorem keyword_overflow_note_missing :
    strContains
      (build_keyword_context
        (some ["k1", "k2", "k3", "k4", "k5", "k6", "k7", "k8", "k9", "k10", "k11"]))
      "(and 1 more...)" = false
    ∧ strContains
      (build_keyword_context
        (some ["k1", "k2", "k3", "k4", "k5", "k6", "k7", "k8", "k9", "k10", "k11"]))
      "more...)" = false := by
  decide

/-- Concrete 11-keyword and 51-topic lists for the C1 witness. -/
def c1ks : List String :=
  ["k1", "k2", "k3", "k4", "k5", "k6", "k7", "k8", "k9", "k10", "k11"]

def c1ts : List String :=
  ["p1", "p2", "p3", "p4", "p5", "p6", "p7", "p8", "p9", "p10",
   "p11", "p12", "p13", "p14", "p15", "p16", "p17", "p18", "p19", "p20",
   "p21", "p22", "p23", "p24", "p25", "p26", "p27", "p28", "p29", "p30",
   "p31", "p32", "p33", "p34", "p35", "p36", "p37", "p38", "p39", "p40",
   "p41", "p42", "p43", "p44", "p45", "p46", "p47", "p48", "p49", "p50",
   "p51"]

theorem topic_cap_noted_keyword_cap_silent_witness :
    strContains (build_duplication_context (some c1ts))
        ("(and " ++ pyRepr (c1ts.length - MAX_EXISTING_TOPICS) ++ " more...)") = true
    ∧ build_keyword_context (some c1ks)
        = build_keyword_context (some (c1ks.take MAX_KEYWORDS)) := by
  have h := topic_cap_noted_keyword_cap_silent c1ks c1ts (by decide) (by decide)
  exact ⟨h.2.1, h.2.2.1⟩

set_option maxRecDepth 40000 in
/-- C6: when the keyword list, product target and existing-topics list are
each empty or absent, every optional context builder renders the empty
string, the prompt equals the bare template with all three sections
elided, and (at the representative input) the rendered prompt contains
none of the three section headers. -/
theorem empty_inputs_render_no_sections :
    (∀ tk : Option (List String), (tk = none ∨ tk = some []) →
      build_keyword_context tk = "")
    ∧ (∀ pt : Option String, (pt = none ∨ pt = some "") →
      build_product_context pt = "")
    ∧ (∀ et : Option (List String), (et = none ∨ et = some []) →
      build_duplication_context et = "")
    ∧ (∀ (rb p : String) (n : Nat) (tk : Option (List String)) (pt : Option String)
          (et : Option (List String)),
        (tk = none ∨ tk = some []) → (pt = none ∨ pt = some "") →
        (et = none ∨ et = some []) →
        build_prompt rb p tk pt et n = promptTemplate rb p "" "" "" n)
    ∧ strContains (build_prompt "https://blog.example.com/" "" none none none 5)
        "TARGET KEYWORDS TO INCORPORATE" = false
    ∧ strContains (build_prompt "https://blog.example.com/" "" none none none 5)
        "PRODUCT/SERVICE TO PROMOTE" = false
    ∧ strContains (build_prompt "https://blog.example.com/" "" none none none 5)
        "EXISTING BLOG POSTS TO AVOID DUPLICATING" = false := by
  refine ⟨?_, ?_, ?_, ?_, by decide, by decide, by decide⟩
  · rintro tk (rfl | rfl) <;> rfl
  · rintro pt (rfl | rfl) <;> rfl
  · rintro et (rfl | rfl) <;> rfl
  · rintro rb p n tk pt et (rfl | rfl) (rfl | rfl) (rfl | rfl) <;> rfl

theorem empty_inputs_render_no_sections_witness :
    build_prompt "https://b.example" "prefs" none (some "") (some []) 3
      = promptTemplate "https://b.example" "prefs" "" "" "" 3 :=
  empty_inputs_render_no_sections.2.2.2.1 "https://b.example" "prefs" 3 none
    (some "") (some []) (Or.inl rfl) (Or.inr rfl) (Or.inr rfl)

/-! ## Claim theorems: the orchestrator pipeline -/

/-- C3 (amended): if the research, writing or editing invocation raises,
the run aborts there — the error string becomes `results["error"]` and no
later-stage field is populated; a failure inside the style-analysis stage,
however, is caught within `analyze_blog_style` itself, which returns
`"Style analysis failed: ..."` as an ordinary style guide and lets the
pipeline continue with no error indicator. -/
theorem stage_failure_aborts_rest :
    ∀ (invoke : Invoker) (topic rb req e : String),
      (invoke .researcher (researchPrompt topic req) = .error e →
        create_blog_post invoke topic rb req
          = { style_guide := some (analyze_blog_style invoke rb), error := some e })
      ∧ (∀ research, invoke .researcher (researchPrompt topic req) = .ok research →
          invoke .writer
              (writingPrompt topic (analyze_blog_style invoke rb) research req rb)
            = .error e →
          create_blog_post invoke topic rb req
            = { style_guide := some (analyze_blog_style invoke rb),
                research := some research, error := some e })
      ∧ (∀ research draft, invoke .researcher (researchPrompt topic req) = .ok research →
          invoke .writer
              (writingPrompt topic (analyze_blog_style invoke rb) research req rb)
            = .ok draft →
          invoke .editor (editingPrompt rb (analyze_blog_style invoke rb) draft)
            = .error e →
          create_blog_post invoke topic rb req
            = { style_guide := some (analyze_blog_style invoke rb),
                research := some research, draft := some draft, error := some e })
      ∧ (invoke .style_analyzer (stylePrompt rb) = .error e →
          analyze_blog_style invoke rb = "Style analysis failed: " ++ e) := by
  intro invoke topic rb req e
  refine ⟨?_, ?_, ?_, ?_⟩
  · intro h
    unfold create_blog_post
    rw [h]
  · intro research h1 h2
    unfold create_blog_post
    rw [h1]
    simp only []
    rw [h2]
  · intro research draft h1 h2 h3
    unfold create_blog_post
    rw [h1]
    simp only []
    rw [h2]
    simp only []
    rw [h3]
  · intro h
    unfold analyze_blog_style
    rw [h]

/-- An oracle whose style-analyzer invocation raises and whose other
agents answer normally. -/
def styleFailOracle : Invoker :=
  fun k _ => if k = AgentKey.style_analyzer then .error "boom" else .ok "OUT"

/-- C3 (counterexample to the claim as stated): in a run where the style
stage's invocation raises, the remaining stages are not aborted, the
terminal result has no error indicator, and later-stage fields are
populated. -/
theorem style_failure_not_surfaced :
    (create_blog_post styleFailOracle "Remote Work" "ExampleBlog.com" "").error = none
    ∧ (create_blog_post styleFailOracle "Remote Work" "ExampleBlog.com" "").final
        = some "OUT"
    ∧ (create_blog_post styleFailOracle "Remote Work" "ExampleBlog.com" "").style_guide
        = some "Style analysis failed: boom" :=
  ⟨rfl, rfl, rfl⟩

/-- An oracle whose researcher invocation raises. -/
def researchFailOracle : Invoker :=
  fun k _ => if k = AgentKey.researcher then .error "net down" else .ok "OUT"

theorem stage_failure_aborts_rest_witness :
    create_blog_post researchFailOracle "Remote Work" "ExampleBlog.com" ""
      = { style_guide := some "OUT", error := some "net down" } := by
  have h := (stage_failure_aborts_rest researchFailOracle "Remote Work"
      "ExampleBlog.com" "" "net down").1 rfl
  rw [h]
  rfl

/-- C4 (amended): whichever stage fails first — research, writing or
editing — the error message is recorded under the `error` key, but the
fields populated by the earlier completed stages — the style guide, the
research output when present, and the draft when present — are retained
in the returned `results` dict alongside the error rather than
discarded. -/
theorem failure_keeps_partial_results :
    ∀ (invoke : Invoker) (topic rb req e : String),
      (invoke .researcher (researchPrompt topic req) = .error e →
        (create_blog_post invoke topic rb req).error = some e
        ∧ (create_blog_post invoke topic rb req).style_guide
            = some (analyze_blog_style invoke rb))
      ∧ (∀ research, invoke .researcher (researchPrompt topic req) = .ok research →
          invoke .writer
              (writingPrompt topic (analyze_blog_style invoke rb) research req rb)
            = .error e →
          (create_blog_post invoke topic rb req).error = some e
          ∧ (create_blog_post invoke topic rb req).style_guide
              = some (analyze_blog_style invoke rb)
          ∧ (create_blog_post invoke topic rb req).research = some research)
      ∧ ∀ research draft, invoke .researcher (researchPrompt topic req) = .ok research →
          invoke .writer
              (writingPrompt topic (analyze_blog_style invoke rb) research req rb)
            = .ok draft →
          invoke .editor (editingPrompt rb (analyze_blog_style invoke rb) draft)
            = .error e →
          (create_blog_post invoke topic rb req).error = some e
          ∧ (create_blog_post invoke topic rb req).style_guide
              = some (analyze_blog_style invoke rb)
          ∧ (create_blog_post invoke topic rb req).research = some research
          ∧ (create_blog_post invoke topic rb req).draft = some draft := by
  intro invoke topic rb req e
  refine ⟨?_, ?_, ?_⟩
  · intro h
    unfold create_blog_post
    rw [h]
    exact ⟨rfl, rfl⟩
  · intro research h1 h2
    unfold create_blog_post
    rw [h1]
    simp only []
    rw [h2]
    exact ⟨rfl, rfl, rfl⟩
  · intro research draft h1 h2 h3
    unfold create_blog_post
    rw [h1]
    simp only []
    rw [h2]
    simp only []
    rw [h3]
    exact ⟨rfl, rfl, rfl, rfl⟩

/-- An oracle whose researcher invocation raises (C4 evidence). -/
def quotaFailOracle : Invoker :=
  fun k _ => if k = AgentKey.researcher then .error "api quota" else .ok "OUT"

/-- C4 (counterexample to the claim as stated): after a research-stage
failure the returned result carries the style guide produced by the
completed first stage next to the error message — the partial state is
returned, not discarded. -/
theorem error_result_retains_style_guide :
    (create_blog_post quotaFailOracle "Remote Work" "ExampleBlog.com" "").error
        = some "api quota"
    ∧ (create_blog_post quotaFailOracle "Remote Work" "ExampleBlog.com" "").style_guide
        = some "OUT" :=
  ⟨rfl, rfl⟩

/-- An oracle whose editor invocation raises (C4 witness): the last stage
fails, so the style guide, research output and draft are all present. -/
def editorFailOracle : Invoker :=
  fun k _ => if k = AgentKey.editor then .error "length limit" else .ok "OUT"

theorem failure_keeps_partial_results_witness :
    (create_blog_post editorFailOracle "Remote Work" "ExampleBlog.com" "").error
        = some "length limit"
    ∧ (create_blog_post editorFailOracle "Remote Work" "ExampleBlog.com" "").style_guide
        = some (analyze_blog_style editorFailOracle "ExampleBlog.com")
    ∧ (create_blog_post editorFailOracle "Remote Work" "ExampleBlog.com" "").research
        = some "OUT"
    ∧ (create_blog_post editorFailOracle "Remote Work" "ExampleBlog.com" "").draft
        = some "OUT" :=
  (failure_keeps_partial_results editorFailOracle "Remote Work" "ExampleBlog.com" ""
    "length limit").2.2 "OUT" "OUT" rfl rfl rfl

/-- The fixed two-paragraph string of the mocked model. -/
def mockTwoParagraph : String :=
  "Remote work has reshaped how teams operate.\n\nCompanies that embrace flexibility will attract the best talent."

/-- A mocked model: every invocation returns the fixed string. -/
def mockInvoke : Invoker := fun _ _ => .ok mockTwoParagraph

/-- C8: with the model mocked as a constant function, `create_blog_post`
on topic "Remote Work" and reference "ExampleBlog.com" returns a result
with each of the style, research, draft and final fields populated and
equal to the (nonempty) mocked string, and no error field. -/
theorem mocked_pipeline_full_success :
    create_blog_post mockInvoke "Remote Work" "ExampleBlog.com" ""
      = { style_guide := some mockTwoParagraph, research := some mockTwoParagraph,
          draft := some mockTwoParagraph, final := some mockTwoParagraph,
          error := none }
    ∧ mockTwoParagraph ≠ "" :=
  ⟨rfl, by decide⟩

/-! ## Claim theorems: pipeline state dataflow (C7) -/

/-- C7: in both pipelines each state field is assigned by at most one
stage (the joined write list has no duplicates, so no field is mutated
after being set), and every field a stage reads while building its prompt
is either a global/initial field or was assigned by a stage that runs
strictly earlier in the fixed order. -/
theorem state_write_once_and_read_after_write :
    (writeList workflowStages).Nodup
    ∧ readsBeforeWrites workflowInitFields workflowStages
    ∧ (writeList orchestratorStages).Nodup
    ∧ readsBeforeWrites orchestratorGlobals orchestratorStages := by
  refine ⟨by decide, ?_, by decide, ?_⟩ <;>
    · intro i f hf
      fin_cases i <;> fin_cases hf <;> decide

/-! ## Claim theorems: parallel research (C9) -/

theorem pyDictKeys_mem (ks : List String) (x : String) :
    x ∈ pyDictKeys ks ↔ x ∈ ks := by
  have aux : ∀ (ks : List String) (acc : List String) (x : String),
      x ∈ ks.foldl (fun acc k => if k ∈ acc then acc else acc ++ [k]) acc
        ↔ x ∈ acc ∨ x ∈ ks := by
    intro ks
    induction ks with
    | nil => intro acc x; simp
    | cons k ks ih =>
      intro acc x
      rw [List.foldl_cons, ih]
      by_cases hk : k ∈ acc
      · simp only [if_pos hk, List.mem_cons]
        constructor
        · rintro (h | h)
          · exact Or.inl h
          · exact Or.inr (Or.inr h)
        · rintro (h | rfl | h)
          · exact Or.inl h
          · exact Or.inl hk
          · exact Or.inr h
      · simp only [if_neg hk, List.mem_append, List.mem_cons]
        constructor
        · rintro ((h | rfl | h0) | h)
          · exact Or.inl h
          · exact Or.inr (Or.inl rfl)
          · exact absurd h0 (List.not_mem_nil x)
          · exact Or.inr (Or.inr h)
        · rintro (h | rfl | h)
          · exact Or.inl (Or.inl h)
          · exact Or.inl (Or.inr (Or.inl rfl))
          · exact Or.inr h
  rw [pyDictKeys, aux]
  simp

theorem pyDictKeys_nodup (ks : List String) : (pyDictKeys ks).Nodup := by
  have aux : ∀ (ks : List String) (acc : List String), acc.Nodup →
      (ks.foldl (fun acc k => if k ∈ acc then acc else acc ++ [k]) acc).Nodup := by
    intro ks
    induction ks with
    | nil => intro acc h; exact h
    | cons k ks ih =>
      intro acc h
      rw [List.foldl_cons]
      by_cases hk : k ∈ acc
      · rw [if_pos hk]
        exact ih acc h
      · rw [if_neg hk]
        refine ih _ ?_
        simp [List.nodup_append, h, hk]
  exact aux ks [] List.nodup_nil

theorem map_fst_keyed (g : String → String) :
    ∀ l : List String, (l.map (fun k => (k, g k))).map Prod.fst = l := by
  intro l
  induction l with
  | nil => rfl
  | cons a l ih =>
    simp only [List.map_cons]
    rw [ih]

theorem parallel_research_keys (r : String → String) (topic : String)
    (areas : List String) :
    (parallel_research r topic areas).map Prod.fst = pyDictKeys areas :=
  map_fst_keyed (fun area => r (researchAreaPrompt topic area)) (pyDictKeys areas)

theorem lookupPair_map_of_mem (g : String → String) :
    ∀ (keys : List String) (a : String), a ∈ keys →
      lookupPair a (keys.map (fun k => (k, g k))) = some (g a) := by
  intro keys
  induction keys with
  | nil => intro a ha; simp at ha
  | cons k ks ih =>
    intro a ha
    show lookupPair a ((k, g k) :: ks.map (fun k => (k, g k))) = some (g a)
    unfold lookupPair
    by_cases hk : k = a
    · subst hk
      simp
    · rw [if_neg hk]
      rcases List.mem_cons.mp ha with rfl | ha
      · exact absurd rfl hk
      · exact ih a ha

theorem lookupPair_some_mem {a v : String} :
    ∀ {l : List (String × String)}, lookupPair a l = some v → (a, v) ∈ l := by
  intro l
  induction l with
  | nil => intro h; simp [lookupPair] at h
  | cons p l ih =>
    intro h
    obtain ⟨k, w⟩ := p
    unfold lookupPair at h
    by_cases hk : k = a
    · subst hk
      rw [if_pos rfl] at h
      rw [Option.some_inj.mp h] at *
      exact List.mem_cons_self _ _
    · rw [if_neg hk] at h
      exact List.mem_cons_of_mem _ (ih h)

theorem lookupPair_none_iff {a : String} :
    ∀ {l : List (String × String)}, lookupPair a l = none ↔ a ∉ l.map Prod.fst := by
  intro l
  induction l with
  | nil => simp [lookupPair]
  | cons p l ih =>
    obtain ⟨k, w⟩ := p
    unfold lookupPair
    by_cases hk : k = a
    · subst hk
      simp
    · rw [if_neg hk]
      rw [ih]
      simp only [List.map_cons, List.mem_cons]
      constructor
      · intro h hm
        rcases hm with hm | hm
        · exact hk hm.symm
        · exact h hm
      · intro h hm
        exact h (Or.inr hm)

theorem lookupPair_of_mem_nodup {a v : String} :
    ∀ {l : List (String × String)}, (l.map Prod.fst).Nodup → (a, v) ∈ l →
      lookupPair a l = some v := by
  intro l
  induction l with
  | nil => intro _ h; simp at h
  | cons p l ih =>
    intro hnd hm
    obtain ⟨k, w⟩ := p
    rw [List.map_cons, List.nodup_cons] at hnd
    unfold lookupPair
    rcases List.mem_cons.mp hm with heq | hm
    · injection heq with h1 h2
      subst h1
      subst h2
      rw [if_pos rfl]
    · by_cases hk : k = a
      · subst hk
        exact absurd (List.mem_map.mpr ⟨(k, v), hm, rfl⟩) hnd.1
      · rw [if_neg hk]
        exact ih hnd.2 hm

theorem lookupPair_perm {l₁ l₂ : List (String × String)} (h : l₁.Perm l₂)
    (hnd : (l₂.map Prod.fst).Nodup) (a : String) :
    lookupPair a l₁ = lookupPair a l₂ := by
  have hnd1 : (l₁.map Prod.fst).Nodup := ((h.map Prod.fst).nodup_iff).mpr hnd
  cases hx : lookupPair a l₂ with
  | none =>
    rw [lookupPair_none_iff]
    rw [lookupPair_none_iff] at hx
    intro hm
    exact hx (((h.map Prod.fst).mem_iff).mp hm)
  | some v =>
    exact lookupPair_of_mem_nodup hnd1 (h.mem_iff.mpr (lookupPair_some_mem hx))

/-- C9: `parallel_research` returns a mapping whose key set is exactly the
set of input subtopics, with each subtopic mapped to the research output
computed from its own prompt; and since results are collected per keyed
future, any completion order (any permutation of the worker results)
yields the same mapping. -/
theorem parallel_research_merges_all :
    ∀ (r : String → String) (topic : String) (areas : List String),
      (∀ a, a ∈ (parallel_research r topic areas).map Prod.fst ↔ a ∈ areas)
      ∧ (∀ a ∈ areas, lookupPair a (parallel_research r topic areas)
            = some (r (researchAreaPrompt topic a)))
      ∧ ∀ events : List (String × String),
          events.Perm (parallel_research r topic areas) →
          ∀ a, lookupPair a events = lookupPair a (parallel_research r topic areas) := by
  intro r topic areas
  refine ⟨?_, ?_, ?_⟩
  · intro a
    rw [parallel_research_keys]
    exact pyDictKeys_mem areas a
  · intro a ha
    exact lookupPair_map_of_mem _ (pyDictKeys areas) a ((pyDictKeys_mem areas a).mpr ha)
  · intro events hp a
    refine lookupPair_perm hp ?_ a
    rw [parallel_research_keys]
    exact pyDictKeys_nodup areas

/-- A concrete research worker for the C9 witness. -/
def c9r : String → String := fun s => "summary of " ++ s

theorem parallel_research_merges_all_witness :
    lookupPair "markets" (parallel_research c9r "AI" ["markets", "ethics"])
      = some (c9r (researchAreaPrompt "AI" "markets")) :=
  (parallel_research_merges_all c9r "AI" ["markets", "ethics"]).2.1 "markets" (by decide)

end BlogAgents
